import Mathlib

/-!
# Verification of the ClickUp dashboard data pipeline

Shallow embedding of `src/services/clickupService.ts`: the aggregation engine
(`processTasksIntoProjects`), the comment-enrichment pipeline
(`enrichProjectsWithComments`), and the resilient fetch layer
(`fetchWithRetry`, `fetchTeamTasks`).

Modelling conventions:
* JavaScript numbers that hold millisecond epoch timestamps are embedded as
  `Int`.  String-encoded timestamps (`due_date`, `date_updated`, comment
  `date`) are embedded already parsed: `parseInt` of an absent / empty /
  non-numeric string yields `null`/`NaN`, both of which behave identically
  (falsy, all `<`/`>=` comparisons false) in every use site of the source, so
  they are embedded as `none`; `"0"` parses to `0` (falsy) and is kept as
  `some 0` with the falsiness check made explicit at each use site.
* `Date.now()` is captured once per run in the source; it is threaded here as
  an explicit `now : Int` parameter.
* Network effects are embedded as explicit oracles: one attempt oracle
  `Nat → AttemptResult` per request for the retry layer, a page-indexed
  family of attempt oracles for pagination, and a pure
  `String → List ClickUpComment` comment source for enrichment (per the
  source, `fetchTaskComments` resolves to `[]` on every failure).
* `Array.prototype.sort` with a consistent comparator produces the stable
  sorted permutation of its input (ECMAScript 2019+); it is embedded as
  `List.insertionSort` over the comparator order, which is stable.
-/

/-- Character-list prefix test, used by the substring search below. -/
def startsWithL : List Char → List Char → Bool
  | _, [] => true
  | [], _ :: _ => false
  | a :: as, b :: bs => a == b && startsWithL as bs

/-- Character-list substring test (`haystack` first, then `pattern`). -/
def containsSubL : List Char → List Char → Bool
  | [], pat => pat.isEmpty
  | l@(_ :: rest), pat => startsWithL l pat || containsSubL rest pat

/-- JavaScript `String.prototype.includes`, for the ASCII strings the service
compares (kernel-reducible, unlike `String.containsSubstr`). -/
def stringIncludes (s pat : String) : Bool := containsSubL s.data pat.data

/-- ASCII lower-casing of one character; coincides with JS `toLowerCase` on
the ASCII status names the service compares against. -/
def asciiLowerChar (c : Char) : Char :=
  if 'A' ≤ c && c ≤ 'Z' then Char.ofNat (c.toNat + 32) else c

/-- JS `String.prototype.toLowerCase` restricted to ASCII. -/
def asciiLower (s : String) : String := String.mk (s.data.map asciiLowerChar)

/-! ## Data model (from `src/types.ts`, fields the service reads) -/

/-- Task status: name string plus categorical type (`open`/`custom`/`closed`). -/
structure ClickUpStatus where
  status : String
  type : String
deriving DecidableEq

/-- List reference carried by a task. -/
structure ClickUpList where
  id : String
  name : String
deriving DecidableEq

/-- Folder reference optionally carried by a task. -/
structure ClickUpFolder where
  id : String
  name : String
deriving DecidableEq

/-- Space reference carried by a task (the service only reads `id`). -/
structure ClickUpSpaceRef where
  id : String
  name : String
deriving DecidableEq

/-- Comment: the fields the service reads and writes.  `date` is the parsed
string-encoded millisecond timestamp; `task_id`/`task_name` are absent in the
raw API payload and added by enrichment. -/
structure ClickUpComment where
  id : String
  comment_text : String
  resolved : Bool
  date : Int
  task_id : Option String
  task_name : Option String
deriving DecidableEq

/-- Task: the fields the service reads.  `status`, `list` and `space` are
required upstream but read defensively (`?.` / `!task.list`) by the service,
hence `Option` here. -/
structure ClickUpTask where
  id : String
  name : String
  status : Option ClickUpStatus
  date_updated : Option Int
  due_date : Option Int
  list : Option ClickUpList
  folder : Option ClickUpFolder
  space : Option ClickUpSpaceRef
  comments : List ClickUpComment
deriving DecidableEq

/-- Statistics block of a project. -/
structure ProjectStats where
  totalTasks : Nat
  openTasks : Nat
  completedTasks : Nat
  overdueTasks : Nat
  dueNext7Days : Nat
  percentComplete : Nat
deriving DecidableEq

/-- Three-valued risk classification. -/
inductive RiskLevel where
  | High
  | Medium
  | Low
deriving DecidableEq

/-- Project record produced by the aggregation engine. -/
structure ProjectData where
  id : String
  name : String
  folderName : String
  spaceName : String
  tasks : List ClickUpTask
  stats : ProjectStats
  riskLevel : RiskLevel
  latestComment : Option ClickUpComment
  recentComments : List ClickUpComment
deriving DecidableEq

/-! ## Aggregation engine (`processTasksIntoProjects`) -/

/-- One day in milliseconds (`24 * 60 * 60 * 1000`). -/
def oneDayMs : Int := 24 * 60 * 60 * 1000

/-- Closed determination from the source:
`statusType === 'closed' || statusName === 'complete' || statusName === 'closed'`
where `statusName` is the lower-cased status name. -/
def isClosedTask (t : ClickUpTask) : Bool :=
  t.status.map (fun s => s.type) == some "closed"
    || t.status.map (fun s => asciiLower s.status) == some "complete"
    || t.status.map (fun s => asciiLower s.status) == some "closed"

/-- Overdue check `dueDate && dueDate < now`: the parsed due date must be
truthy (non-zero, non-`NaN`) and strictly in the past. -/
def isOverdue (now : Int) (t : ClickUpTask) : Bool :=
  match t.due_date with
  | none => false
  | some d => d != 0 && decide (d < now)

/-- Due-soon check `dueDate && dueDate >= now && dueDate <= sevenDaysFromNow`. -/
def isDueSoon (now : Int) (t : ClickUpTask) : Bool :=
  match t.due_date with
  | none => false
  | some d => d != 0 && decide (now ≤ d) && decide (d ≤ now + 7 * oneDayMs)

/-- Per-task incremental statistics update from the aggregation loop. -/
def updateStats (now : Int) (s : ProjectStats) (t : ClickUpTask) : ProjectStats :=
  let s1 := { s with totalTasks := s.totalTasks + 1 }
  if isClosedTask t then
    { s1 with completedTasks := s1.completedTasks + 1 }
  else
    let s2 := { s1 with openTasks := s1.openTasks + 1 }
    let s3 := if isOverdue now t then { s2 with overdueTasks := s2.overdueTasks + 1 } else s2
    if isDueSoon now t then { s3 with dueNext7Days := s3.dueNext7Days + 1 } else s3

/-- Group key of a task: `none` when the task has no list reference (skipped);
otherwise `(groupId, groupName, folderName)` — the folder when present with a
truthy (non-empty) id, else the list with the `" (List)"` display suffix. -/
def groupKey (t : ClickUpTask) : Option (String × String × String) :=
  match t.list with
  | none => none
  | some l =>
    match t.folder with
    | some f => if f.id ≠ "" then some (f.id, f.name, f.name)
                else some (l.id, l.name ++ " (List)", "No Folder")
    | none => some (l.id, l.name ++ " (List)", "No Folder")

/-- Space display field: `task.space?.id || 'Unknown Space'` (the source reads
the space id, not its name). -/
def spaceNameOf (t : ClickUpTask) : String :=
  match t.space with
  | some s => if s.id = "" then "Unknown Space" else s.id
  | none => "Unknown Space"

/-- Fresh project record as created on first encounter of a group key. -/
def newProject (gid gname fname sname : String) : ProjectData :=
  { id := gid, name := gname, folderName := fname, spaceName := sname,
    tasks := [],
    stats := { totalTasks := 0, openTasks := 0, completedTasks := 0,
               overdueTasks := 0, dueNext7Days := 0, percentComplete := 0 },
    riskLevel := RiskLevel.Low, latestComment := none, recentComments := [] }

/-- Append a task to a project and update its statistics. -/
def addTaskToProject (now : Int) (p : ProjectData) (t : ClickUpTask) : ProjectData :=
  { p with tasks := p.tasks ++ [t], stats := updateStats now p.stats t }

/-- Update of the insertion-ordered map at a known group key
(`Map.has`/`Map.set`/`Map.get` on an association list that preserves
insertion order, as a JS `Map` does): create the project on first encounter,
then append the task and update the statistics. -/
def insertTaskKeyed (now : Int) (m : List (String × ProjectData)) (t : ClickUpTask)
    (gid gname fname : String) : List (String × ProjectData) :=
  if m.any (fun kv => kv.1 == gid) then
    m.map (fun kv => if kv.1 == gid then (kv.1, addTaskToProject now kv.2 t) else kv)
  else
    m ++ [(gid, addTaskToProject now (newProject gid gname fname (spaceNameOf t)) t)]

/-- One step of the aggregation loop: skip tasks with no list reference,
otherwise update the map at the task's group key. -/
def insertTask (now : Int) (m : List (String × ProjectData)) (t : ClickUpTask) :
    List (String × ProjectData) :=
  match groupKey t with
  | none => m
  | some (gid, gname, fname) => insertTaskKeyed now m t gid gname fname

/-- The aggregation loop: fold all tasks into the insertion-ordered map. -/
def buildProjectsMap (now : Int) (tasks : List ClickUpTask) : List (String × ProjectData) :=
  tasks.foldl (insertTask now) []

/-- Completion percentage
`Math.round((completedTasks / totalTasks) * 100)` for `totalTasks > 0`,
computed on exact rationals.  JS `Math.round` is round-half-up
(`⌊x + 1/2⌋`), and for naturals `c`, `t` with `0 < t` that equals
`(200 * c + t) / (2 * t)` in natural division; the equivalence with the
rational rounding expression is proved in `jsRoundPercent_eq_round`. -/
def jsRoundPercent (c t : Nat) : Nat := (200 * c + t) / (2 * t)

/-- Risk classification rule applied to a finalized statistics block. -/
def computeRisk (s : ProjectStats) : RiskLevel :=
  if s.overdueTasks > 0 then RiskLevel.High
  else if s.dueNext7Days > 0 ∧ s.percentComplete < 50 then RiskLevel.Medium
  else RiskLevel.Low

/-- Finalization pass: completion percentage and risk classification. -/
def finalizeProject (p : ProjectData) : ProjectData :=
  let pc := if p.stats.totalTasks > 0
            then jsRoundPercent p.stats.completedTasks p.stats.totalTasks else 0
  let st : ProjectStats := { p.stats with percentComplete := pc }
  { p with stats := st, riskLevel := computeRisk st }

/-- Numeric risk score used by the final comparator. -/
def riskScore : RiskLevel → Nat
  | RiskLevel.High => 3
  | RiskLevel.Medium => 2
  | RiskLevel.Low => 1

/-- Order induced by the final comparator
`(a, b) => riskScore[b] - riskScore[a] || b.stats.openTasks - a.stats.openTasks`:
`a` may precede `b` iff the comparator is `≤ 0` on `(a, b)`. -/
def projectDisplayOrder (a b : ProjectData) : Prop :=
  riskScore b.riskLevel < riskScore a.riskLevel ∨
    (riskScore b.riskLevel = riskScore a.riskLevel ∧ b.stats.openTasks ≤ a.stats.openTasks)

instance decProjectDisplayOrder : DecidableRel projectDisplayOrder := fun a b =>
  inferInstanceAs (Decidable (riskScore b.riskLevel < riskScore a.riskLevel ∨
    (riskScore b.riskLevel = riskScore a.riskLevel ∧ b.stats.openTasks ≤ a.stats.openTasks)))

instance totalProjectDisplayOrder : IsTotal ProjectData projectDisplayOrder where
  total a b := by
    unfold projectDisplayOrder
    rcases Nat.lt_trichotomy (riskScore a.riskLevel) (riskScore b.riskLevel) with h | h | h
    · exact Or.inr (Or.inl h)
    · rcases Nat.le_total (b.stats.openTasks) (a.stats.openTasks) with h2 | h2
      · exact Or.inl (Or.inr ⟨h.symm, h2⟩)
      · exact Or.inr (Or.inr ⟨h, h2⟩)
    · exact Or.inl (Or.inl h)

instance transProjectDisplayOrder : IsTrans ProjectData projectDisplayOrder where
  trans a b c hab hbc := by
    unfold projectDisplayOrder at *
    rcases hab with h1 | ⟨h1, h2⟩
    · rcases hbc with h3 | ⟨h3, h4⟩
      · exact Or.inl (lt_trans h3 h1)
      · exact Or.inl (lt_of_le_of_lt (le_of_eq h3) h1)
    · rcases hbc with h3 | ⟨h3, h4⟩
      · exact Or.inl (lt_of_lt_of_le h3 (le_of_eq h1))
      · exact Or.inr ⟨h3.trans h1, le_trans h4 h2⟩

/-- The aggregation engine: group, finalize, sort. -/
def processTasksIntoProjects (now : Int) (tasks : List ClickUpTask) : List ProjectData :=
  ((buildProjectsMap now tasks).map (fun kv => finalizeProject kv.2)).insertionSort
    projectDisplayOrder

-- Structural equality for `Except` results (not provided by core).
deriving instance DecidableEq for Except

/-! ## Comment-enrichment pipeline (`enrichProjectsWithComments`) -/

/-- Candidate entry `{ taskId, projectIndex, taskName }` queued for a comment
fetch. -/
structure FetchItem where
  taskId : String
  projectIndex : Nat
  taskName : String
deriving DecidableEq

/-- A candidate together with the comments its fetch resolved to. -/
structure FetchResult extends FetchItem where
  comments : List ClickUpComment
deriving DecidableEq

/-- Thirty days in milliseconds, the enrichment look-back window. -/
def thirtyDaysMs : Int := 30 * oneDayMs

/-- Candidate filter `parseInt(t.date_updated) > thirtyDaysAgo` (false when
the parse yields `NaN`). -/
def isRecentlyUpdated (now : Int) (t : ClickUpTask) : Bool :=
  match t.date_updated with
  | none => false
  | some u => decide (u > now - thirtyDaysMs)

/-- Candidate selection: for every project (with its index), every task that
was updated within the last 30 days, in traversal order. -/
def candidateTasks (now : Int) : List ProjectData → Nat → List FetchItem
  | [], _ => []
  | p :: ps, idx =>
    (p.tasks.filter (isRecentlyUpdated now)).map
      (fun t => { taskId := t.id, projectIndex := idx, taskName := t.name })
      ++ candidateTasks now ps (idx + 1)

/-- Chunked parallel fetching (chunk size 6, 50 ms inter-chunk pause): results
are pushed in chunk order and each chunk maps its candidates in order, so the
resolved list equals mapping the comment source over the candidates.  The
comment source models `fetchTaskComments`, which resolves to `[]` on every
failure (non-OK response, missing `comments` array, or thrown error). -/
def fetchResults (fetchComments : String → List ClickUpComment)
    (items : List FetchItem) : List FetchResult :=
  items.map (fun item => { toFetchItem := item, comments := fetchComments item.taskId })

/-- Stamp fetched comments with the id and name of the task they were fetched
for (`{...c, task_id, task_name}`). -/
def stampComments (cs : List ClickUpComment) (tid tname : String) : List ClickUpComment :=
  cs.map (fun c => { c with task_id := some tid, task_name := some tname })

/-- Fresh copy of a project entering enrichment: comment lists cleared on the
project and on each task (`{...p, recentComments: [], tasks: p.tasks.map(...)}`);
all other fields, `latestComment` included, are carried over by the spread. -/
def freshCopy (p : ProjectData) : ProjectData :=
  { p with recentComments := [],
           tasks := p.tasks.map (fun t => { t with comments := [] }) }

/-- Assign the stamped comments to the first task with the fetched id
(`project.tasks.find(t => t.id === res.taskId)` followed by the assignment). -/
def setTaskComments : List ClickUpTask → String → List ClickUpComment → List ClickUpTask
  | [], _, _ => []
  | t :: ts, tid, cs =>
    if t.id == tid then { t with comments := cs } :: ts
    else t :: setTaskComments ts tid cs

/-- Merge one fetch result into its project: locate the task by id; when
found, attach the stamped comments to it and append them to the project-wide
`recentComments`. -/
def attachToProject (proj : ProjectData) (res : FetchResult) : ProjectData :=
  if proj.tasks.any (fun t => t.id == res.taskId) then
    let cs := stampComments res.comments res.taskId res.taskName
    { proj with tasks := setTaskComments proj.tasks res.taskId cs,
                recentComments := proj.recentComments ++ cs }
  else proj

/-- Point update of the project list at an index (`enrichedProjects[res.projectIndex]`;
the index is always in range by construction of the candidates). -/
def applyAt : List ProjectData → Nat → FetchResult → List ProjectData
  | [], _, _ => []
  | p :: ps, 0, res => attachToProject p res :: ps
  | p :: ps, n + 1, res => p :: applyAt ps n res

/-- Merge step of the enrichment loop: results with no comments are skipped. -/
def applyResult (state : List ProjectData) (res : FetchResult) : List ProjectData :=
  if res.comments.length > 0 then applyAt state res.projectIndex res else state

/-- Recency order of comments induced by the comparator
`(a, b) => parseInt(b.date) - parseInt(a.date)`: `a` may precede `b` iff the
comparator is `≤ 0`, i.e. `b.date ≤ a.date` (newest first). -/
def commentRecencyOrder (a b : ClickUpComment) : Prop := b.date ≤ a.date

instance decCommentRecencyOrder : DecidableRel commentRecencyOrder := fun a b =>
  inferInstanceAs (Decidable (b.date ≤ a.date))

instance totalCommentRecencyOrder : IsTotal ClickUpComment commentRecencyOrder where
  total a b := le_total b.date a.date

instance transCommentRecencyOrder : IsTrans ClickUpComment commentRecencyOrder where
  trans _ _ _ h1 h2 := le_trans h2 h1

/-- Final per-project pass: sort `recentComments` newest-first and, when the
sorted list is non-empty, point `latestComment` at its head. -/
def finalizeComments (p : ProjectData) : ProjectData :=
  let sorted := p.recentComments.insertionSort commentRecencyOrder
  { p with recentComments := sorted,
           latestComment := match sorted with
             | [] => p.latestComment
             | c :: _ => some c }

/-- The enrichment pipeline: select candidates, fetch (modelled by the pure
comment source), merge into fresh copies, then sort and point. -/
def enrichProjectsWithComments (fetchComments : String → List ClickUpComment)
    (now : Int) (projects : List ProjectData) : List ProjectData :=
  let tasksToFetch := candidateTasks now projects 0
  let results := fetchResults fetchComments tasksToFetch
  let enriched := projects.map freshCopy
  let merged := results.foldl applyResult enriched
  merged.map finalizeComments

/-! ## Resilient fetch layer (`fetchWithRetry`) -/

/-- HTTP response body as the task-page handler distinguishes it:
a JSON document (whose `tasks` field is an array or not), or a non-JSON text
body on which `response.json()` throws. -/
inductive RespBody where
  | json (tasks : Option (List ClickUpTask))
  | text (s : String)
deriving DecidableEq

/-- HTTP response: status plus body. -/
structure HttpResponse where
  status : Nat
  body : RespBody
deriving DecidableEq

/-- Outcome of one underlying `fetch` call: a response, or a thrown network
error with its message. -/
inductive AttemptResult where
  | response (r : HttpResponse)
  | netError (msg : String)
deriving DecidableEq

/-- Failure as recorded by the retry loop: a thrown network error, the
synthesized `Server/Proxy Error: ${status}` for 429/5xx, or the fallback
`Failed to fetch after N attempts` when the loop never ran. -/
inductive FetchErr where
  | network (msg : String)
  | serverError (status : Nat)
  | exhaustedNoAttempt
deriving DecidableEq

/-- JS `Response.ok`: status in the 2xx range. -/
def responseOk (r : HttpResponse) : Bool :=
  decide (200 ≤ r.status) && decide (r.status ≤ 299)

/-- One loop iteration of `fetchWithRetry`: a 2xx response or a non-429 4xx
(or any other non-retryable status) is returned as is; a 429 or ≥500 status
throws the synthesized error; a thrown network error is caught. -/
inductive LoopStep where
  | done (r : HttpResponse)
  | failed (e : FetchErr)
deriving DecidableEq

/-- Classification of one attempt by the retry loop body. -/
def attemptStep : AttemptResult → LoopStep
  | AttemptResult.response r =>
    if responseOk r then LoopStep.done r
    else if r.status == 429 || decide (500 ≤ r.status) then
      LoopStep.failed (FetchErr.serverError r.status)
    else LoopStep.done r
  | AttemptResult.netError m => LoopStep.failed (FetchErr.network m)

/-- Pre-jitter exponential backoff component `baseDelay * 1.5 ^ attempt`; the
delay actually slept adds a random jitter in `[0, 500)` ms on top. -/
def backoffDelay (baseDelay : ℚ) (i : Nat) : ℚ := baseDelay * (3 / 2 : ℚ) ^ i

/-- The retry loop, structurally recursive on the number of remaining
attempts (`remaining = retries - i` on entry, so the loop condition
`i < retries` is `remaining > 0`).  `attempts i` is the outcome of the
`i`-th underlying `fetch` call.  The second component records, in order,
the attempt indices after which the loop slept (the sleep after attempt `i`
lasts `backoffDelay baseDelay i` plus jitter); on the last attempt
(`remaining = 1`) the loop does not sleep and the last observed failure is
raised; with no attempt at all the fallback error is raised. -/
def fetchWithRetryGo (attempts : Nat → AttemptResult) :
    Nat → Nat → List Nat → Except FetchErr HttpResponse × List Nat
  | _, 0, sleeps => (Except.error FetchErr.exhaustedNoAttempt, sleeps)
  | i, remaining + 1, sleeps =>
    match attemptStep (attempts i) with
    | LoopStep.done r => (Except.ok r, sleeps)
    | LoopStep.failed e =>
      if remaining == 0 then (Except.error e, sleeps)
      else fetchWithRetryGo attempts (i + 1) remaining (sleeps ++ [i])

/-- Robust fetch helper with exponential backoff (source defaults:
`retries = 3`, `baseDelay = 1000`; `baseDelay` only scales the slept
delays, which the embedding records as attempt indices). -/
def fetchWithRetry (attempts : Nat → AttemptResult) (retries : Nat) (baseDelay : ℚ) :
    Except FetchErr HttpResponse × List Nat :=
  let _ := baseDelay
  fetchWithRetryGo attempts 0 retries []

/-! ## Task pagination (`fetchTeamTasks`) -/

/-- Safety limit on the number of task pages (`MAX_PAGES = 50`, 5000 tasks). -/
def MAX_PAGES : Nat := 50

/-- The Cloudflare/proxy HTML marker checked on a JSON parse failure. -/
def doctypeMarker : String := "<!DOCTYPE html>"

/-- Page-level error raised inside the pagination loop: a failure propagated
out of `fetchWithRetry`, a non-OK response (`ClickUp API Error`), the HTML
body detection (`Received HTML (502/Proxy Error) instead of JSON`), or a
rethrown JSON parse error. -/
inductive PageErr where
  | fetchFailed (e : FetchErr)
  | apiError (status : Nat)
  | htmlProxyError
  | jsonError
deriving DecidableEq

/-- Outcome of handling one page response inside the loop body. -/
inductive PageStep where
  | gotTasks (ts : List ClickUpTask)
  | noMore
  | pageFail (e : PageErr)
deriving DecidableEq

/-- Per-page handling from the source: propagate retry-layer failures; throw
on a non-OK response; on a JSON body take the `tasks` array (stop quietly when
it is missing); on a JSON parse failure inspect the body text for the HTML
marker and throw the proxy error, else rethrow. -/
def processPage : Except FetchErr HttpResponse → PageStep
  | Except.error e => PageStep.pageFail (PageErr.fetchFailed e)
  | Except.ok r =>
    if responseOk r then
      match r.body with
      | RespBody.json (some ts) => PageStep.gotTasks ts
      | RespBody.json none => PageStep.noMore
      | RespBody.text s =>
        if stringIncludes s doctypeMarker then PageStep.pageFail PageErr.htmlProxyError
        else PageStep.pageFail PageErr.jsonError
    else PageStep.pageFail (PageErr.apiError r.status)

/-- The pagination loop, structurally recursive on the number of remaining
pages (`fuel = MAX_PAGES - page` on entry, so the loop condition
`page < MAX_PAGES` is `fuel > 0`).  `pageAttempts page` is the attempt
oracle handed to `fetchWithRetry` (budget 4, base delay 1000) for that page;
the optional space scoping only alters the request URL, which the oracle
absorbs.  The result carries the number of pages requested.  A page error
after at least one accumulated task stops the loop and keeps the accumulated
tasks; on the first page it propagates.  `pageResult` is the per-page
request-and-handle step (retry-wrapped fetch followed by response handling). -/
def pageResult (pageAttempts : Nat → Nat → AttemptResult) (page : Nat) : PageStep :=
  processPage (fetchWithRetry (pageAttempts page) 4 1000).1

def fetchTeamTasksGo (pageAttempts : Nat → Nat → AttemptResult) :
    Nat → Nat → List ClickUpTask → Except PageErr (List ClickUpTask) × Nat
  | page, 0, allTasks => (Except.ok allTasks, page)
  | page, fuel + 1, allTasks =>
    match pageResult pageAttempts page with
    | PageStep.gotTasks ts =>
      if ts.length < 100 then (Except.ok (allTasks ++ ts), page + 1)
      else fetchTeamTasksGo pageAttempts (page + 1) fuel (allTasks ++ ts)
    | PageStep.noMore => (Except.ok allTasks, page + 1)
    | PageStep.pageFail e =>
      if allTasks.length > 0 then (Except.ok allTasks, page + 1)
      else (Except.error e, page + 1)

/-- Paginated task listing: accumulate pages from page 0. -/
def fetchTeamTasks (pageAttempts : Nat → Nat → AttemptResult) :
    Except PageErr (List ClickUpTask) × Nat :=
  fetchTeamTasksGo pageAttempts 0 MAX_PAGES []

/-! ## Derived notions used by the statements -/

/-- Whether the retry loop classifies an attempt outcome as a retryable
failure (and therefore enters its backoff path on a non-final attempt). -/
def isRetryClassified (a : AttemptResult) : Bool :=
  match attemptStep a with
  | LoopStep.failed _ => true
  | LoopStep.done _ => false

/-- Concatenation of the task pages `f page, f (page+1), …` for `fuel`
consecutive pages, in request order. -/
def concatRange (f : Nat → List ClickUpTask) : Nat → Nat → List ClickUpTask
  | _, 0 => []
  | page, fuel + 1 => f page ++ concatRange f (page + 1) fuel

/-- Statistics invariants of one statistics block: open and completed tasks
partition the total, and the overdue and due-soon counts (disjoint by
construction) fit inside the open count. -/
def statsWF (s : ProjectStats) : Prop :=
  s.openTasks + s.completedTasks = s.totalTasks ∧
    s.overdueTasks + s.dueNext7Days ≤ s.openTasks

/-- Invariant of the aggregation map: keys are distinct, every entry is keyed
by its project's id, satisfies the statistics invariants, and only holds
tasks that carry a list reference. -/
def mapWF (m : List (String × ProjectData)) : Prop :=
  (m.map Prod.fst).Nodup ∧
    ∀ kv ∈ m, kv.2.id = kv.1 ∧ statsWF kv.2.stats ∧ ∀ t ∈ kv.2.tasks, t.list ≠ none

/-- A task seen through everything but its `comments` field. -/
def stripComments (t : ClickUpTask) : ClickUpTask := { t with comments := [] }

/-- Frame relation between an input project and an enrichment output: every
field other than `recentComments`, `latestComment` and the tasks' `comments`
is unchanged. -/
def frameAgrees (p q : ProjectData) : Prop :=
  q.id = p.id ∧ q.name = p.name ∧ q.folderName = p.folderName ∧
    q.spaceName = p.spaceName ∧ q.stats = p.stats ∧ q.riskLevel = p.riskLevel ∧
    q.tasks.map stripComments = p.tasks.map stripComments

/-- Claim-side window predicate (from the specification wording, for
comparison with the source's `isRecentlyUpdated`): the parsed `date_updated`
lies within the 30 days preceding the reference time. -/
def withinPrecedingWindow (now : Int) (t : ClickUpTask) : Bool :=
  match t.date_updated with
  | none => false
  | some u => decide (now - thirtyDaysMs ≤ u) && decide (u ≤ now)

/-- Claim-side statement (from the specification wording, for comparison with
the source behaviour): every queued candidate belongs to a task whose
`date_updated` lies within the 30 days preceding the reference time. -/
def commentWindowClaim (now : Int) (projects : List ProjectData) : Prop :=
  ∀ item ∈ candidateTasks now projects 0, ∃ p ∈ projects, ∃ t ∈ p.tasks,
    t.id = item.taskId ∧ withinPrecedingWindow now t = true

/-! ## Concrete example data for witnesses and counterexamples -/

/-- Closed status with a capitalized name, exercising the case fold. -/
def exStatusClosed : ClickUpStatus := { status := "Complete", type := "closed" }

/-- Open custom status. -/
def exStatusOpen : ClickUpStatus := { status := "in progress", type := "custom" }

def exList1 : ClickUpList := { id := "L1", name := "Ops List" }

def exList2 : ClickUpList := { id := "L2", name := "Other List" }

def exFolder1 : ClickUpFolder := { id := "F1", name := "Ops" }

/-- Folder with an empty (falsy) id, which the grouping ignores. -/
def exFolderEmptyId : ClickUpFolder := { id := "", name := "Ghost" }

def exSpace1 : ClickUpSpaceRef := { id := "S1", name := "Space One" }

/-- Closed task in folder `F1` (the spec §8 scenario, task 1). -/
def exTask1 : ClickUpTask :=
  { id := "1", name := "t1", status := some exStatusClosed, date_updated := some 0,
    due_date := none, list := some exList1, folder := some exFolder1,
    space := some exSpace1, comments := [] }

/-- Open task in folder `F1`, due two days in the past of `now = 0`
(the spec §8 scenario, task 2). -/
def exTask2 : ClickUpTask :=
  { id := "2", name := "t2", status := some exStatusOpen, date_updated := some 0,
    due_date := some (-2 * oneDayMs), list := some exList1, folder := some exFolder1,
    space := some exSpace1, comments := [] }

/-- The single project produced by aggregating `[exTask1, exTask2]` at
`now = 0` (the spec §8 expected outcome). -/
def exProjOps : ProjectData :=
  { id := "F1", name := "Ops", folderName := "Ops", spaceName := "S1",
    tasks := [exTask1, exTask2],
    stats := { totalTasks := 2, openTasks := 1, completedTasks := 1,
               overdueTasks := 1, dueNext7Days := 0, percentComplete := 50 },
    riskLevel := RiskLevel.High, latestComment := none, recentComments := [] }

/-- Task on list `L1` whose folder has the empty id. -/
def exTaskA : ClickUpTask :=
  { id := "a", name := "ta", status := some exStatusOpen, date_updated := none,
    due_date := none, list := some exList1, folder := some exFolderEmptyId,
    space := none, comments := [] }

/-- Task on list `L2` whose folder has the empty id. -/
def exTaskB : ClickUpTask :=
  { id := "b", name := "tb", status := some exStatusOpen, date_updated := none,
    due_date := none, list := some exList2, folder := some exFolderEmptyId,
    space := none, comments := [] }

/-- Task with no list reference at all. -/
def exTaskNoList : ClickUpTask :=
  { id := "n", name := "tn", status := some exStatusOpen, date_updated := none,
    due_date := none, list := none, folder := some exFolder1,
    space := some exSpace1, comments := [] }

/-- Raw (unstamped) comment with timestamp 5. -/
def exCom1 : ClickUpComment :=
  { id := "c1", comment_text := "hi", resolved := false, date := 5,
    task_id := none, task_name := none }

/-- Raw (unstamped) comment with timestamp 9, newer than `exCom1`. -/
def exCom2 : ClickUpComment :=
  { id := "c2", comment_text := "later", resolved := false, date := 9,
    task_id := none, task_name := none }

/-- Project holding one task (`exTask2`) updated 10 days before `now = 0`. -/
def exProjIn : ProjectData :=
  { id := "F1", name := "Ops", folderName := "Ops", spaceName := "S1",
    tasks := [{ exTask2 with date_updated := some (-(10 * oneDayMs)) }],
    stats := { totalTasks := 1, openTasks := 1, completedTasks := 0,
               overdueTasks := 1, dueNext7Days := 0, percentComplete := 0 },
    riskLevel := RiskLevel.High, latestComment := none, recentComments := [] }

/-- Project whose only task was updated one day in the future of `now = 0`. -/
def exProjFuture : ProjectData :=
  { exProjIn with tasks := [{ exTask2 with date_updated := some oneDayMs }] }

/-- Project with a cached latest comment and no tasks at all. -/
def exProjQuiet : ProjectData :=
  { exProjIn with latestComment := some exCom1, tasks := [] }

/-- `exCom1` as stamped for task `"2"` named `"t2"`. -/
def exCom1Stamped : ClickUpComment :=
  { exCom1 with task_id := some "2", task_name := some "t2" }

/-- `exCom2` as stamped for task `"2"` named `"t2"`. -/
def exCom2Stamped : ClickUpComment :=
  { exCom2 with task_id := some "2", task_name := some "t2" }

/-- Expected enrichment output for `exFetch`, `now = 0`, `[exProjIn]`:
stamped comments on the task, newest-first project feed, latest pointer. -/
def exProjEnriched : ProjectData :=
  { exProjIn with
    tasks :=
      [{ exTask2 with
          date_updated := some (-(10 * oneDayMs))
          comments := [exCom1Stamped, exCom2Stamped] }],
    recentComments := [exCom2Stamped, exCom1Stamped],
    latestComment := some exCom2Stamped }

/-- Comment source resolving task `"2"` to two comments, everything else to
none. -/
def exFetch : String → List ClickUpComment := fun tid =>
  if tid == "2" then [exCom1, exCom2] else []

/-- Comment source that always resolves to no comments. -/
def exFetchNone : String → List ClickUpComment := fun _ => []

/-- Successful JSON response with an empty task array. -/
def exResp200 : HttpResponse := { status := 200, body := RespBody.json (some []) }

/-- Not-found response. -/
def exResp404 : HttpResponse := { status := 404, body := RespBody.text "nope" }

/-- Attempt oracle: 503 twice, then 200. -/
def exAttempts503 : Nat → AttemptResult := fun i =>
  if i < 2 then AttemptResult.response { status := 503, body := RespBody.text "err" }
  else AttemptResult.response exResp200

/-- Attempt oracle: 404 on every attempt. -/
def exAttempts404 : Nat → AttemptResult := fun _ => AttemptResult.response exResp404

/-- Attempt oracle: the underlying fetch always throws. -/
def exNetFail : Nat → AttemptResult := fun _ => AttemptResult.netError "Failed to fetch"

/-- A page of 100 identical tasks. -/
def exHundred : List ClickUpTask := List.replicate 100 exTask1

/-- Page oracle: page 0 delivers a full page, every later page's fetches all
throw (pages `[A (success, 100 items), B (failure)]`). -/
def exPagesAB : Nat → Nat → AttemptResult := fun page _ =>
  if page == 0 then AttemptResult.response { status := 200, body := RespBody.json (some exHundred) }
  else AttemptResult.netError "Failed to fetch"

/-- Page oracle: every page delivers a full page. -/
def exFullPages : Nat → Nat → AttemptResult := fun _ _ =>
  AttemptResult.response { status := 200, body := RespBody.json (some exHundred) }

/-- An HTML error document as a proxy would return it with a 200 status. -/
def exHtmlBody : String := "<!DOCTYPE html><html>gateway error</html>"

/-- OK-status response carrying the HTML body instead of JSON. -/
def exHtmlResp : HttpResponse := { status := 200, body := RespBody.text exHtmlBody }

/-- Page oracle: on every page the first attempt yields the OK-status HTML
response and every further attempt would yield valid JSON — so one retry of
the underlying request would succeed. -/
def exHtmlAttempts : Nat → Nat → AttemptResult := fun _ i =>
  if i == 0 then AttemptResult.response exHtmlResp
  else AttemptResult.response exResp200

/-- Page oracle: page 0 delivers a full JSON page; every later page returns
the OK-status HTML body on every attempt. -/
def exPagesAHtml : Nat → Nat → AttemptResult := fun page _ =>
  if page == 0 then
    AttemptResult.response { status := 200, body := RespBody.json (some exHundred) }
  else AttemptResult.response exHtmlResp

/-! ## Lemmas: retry layer -/

lemma rat_zero_lt_1000 : (0 : ℚ) < 1000 := by norm_num

lemma attemptStep_ok {r : HttpResponse} (h : responseOk r = true) :
    attemptStep (AttemptResult.response r) = LoopStep.done r := by
  simp [attemptStep, h]

lemma attemptStep_client {r : HttpResponse} (h400 : 400 ≤ r.status)
    (h499 : r.status ≤ 499) (h429 : r.status ≠ 429) :
    attemptStep (AttemptResult.response r) = LoopStep.done r := by
  have hok : responseOk r = false := by
    simp only [responseOk, Bool.and_eq_false_iff, decide_eq_false_iff_not]
    omega
  have h500 : ¬ (500 ≤ r.status) := by omega
  simp [attemptStep, hok, h429, h500]

lemma isRetryClassified_failed {a : AttemptResult}
    (h : isRetryClassified a = true) : ∃ e, attemptStep a = LoopStep.failed e := by
  unfold isRetryClassified at h
  rcases hs : attemptStep a with r | e
  · rw [hs] at h; simp at h
  · exact ⟨e, rfl⟩

lemma fetchWithRetryGo_done {attempts : Nat → AttemptResult} {i remaining : Nat}
    {sleeps : List Nat} {r : HttpResponse}
    (h : attemptStep (attempts i) = LoopStep.done r) (hr : 0 < remaining) :
    fetchWithRetryGo attempts i remaining sleeps = (Except.ok r, sleeps) := by
  cases remaining with
  | zero => omega
  | succ n => simp [fetchWithRetryGo, h]

lemma fetchWithRetry_first_done {attempts : Nat → AttemptResult} {retries : Nat}
    {baseDelay : ℚ} {r : HttpResponse}
    (h : attemptStep (attempts 0) = LoopStep.done r) (hr : 0 < retries) :
    fetchWithRetry attempts retries baseDelay = (Except.ok r, []) := by
  unfold fetchWithRetry
  exact fetchWithRetryGo_done h hr

lemma fetchWithRetryGo_allFail (attempts : Nat → AttemptResult) :
    ∀ (remaining i : Nat) (sleeps : List Nat) (e : FetchErr),
      0 < remaining →
      (∀ j, j < remaining → isRetryClassified (attempts (i + j)) = true) →
      attemptStep (attempts (i + remaining - 1)) = LoopStep.failed e →
      fetchWithRetryGo attempts i remaining sleeps =
        (Except.error e, sleeps ++ (List.range (remaining - 1)).map (fun j => i + j)) := by
  intro remaining
  induction remaining with
  | zero => intro i sleeps e h; omega
  | succ n ih =>
    intro i sleeps e _ hall hlast
    cases n with
    | zero =>
      have hi : i + 1 - 1 = i := by omega
      rw [hi] at hlast
      simp [fetchWithRetryGo, hlast]
    | succ m =>
      obtain ⟨e0, h0⟩ := isRetryClassified_failed (hall 0 (by omega))
      rw [Nat.add_zero] at h0
      have step : fetchWithRetryGo attempts i (m + 2) sleeps =
          fetchWithRetryGo attempts (i + 1) (m + 1) (sleeps ++ [i]) := by
        simp [fetchWithRetryGo, h0]
      rw [step]
      have hall2 : ∀ j, j < m + 1 → isRetryClassified (attempts (i + 1 + j)) = true := by
        intro j hj
        have hidx : i + 1 + j = i + (j + 1) := by omega
        rw [hidx]
        exact hall (j + 1) (by omega)
      have hlast2 : attemptStep (attempts (i + 1 + (m + 1) - 1)) = LoopStep.failed e := by
        have hidx : i + 1 + (m + 1) - 1 = i + (m + 2) - 1 := by omega
        rw [hidx]; exact hlast
      rw [ih (i + 1) (sleeps ++ [i]) e (by omega) hall2 hlast2]
      have hmap : (List.range (m + 1)).map (fun j => i + j) =
          i :: (List.range m).map (fun j => i + 1 + j) := by
        rw [List.range_succ_eq_map]
        simp only [List.map_cons, List.map_map, Nat.add_zero]
        refine congrArg (i :: ·) ?_
        apply List.map_congr_left
        intro a _
        simp [Function.comp]
        omega
      simp [hmap]

lemma fetchWithRetry_allFail {attempts : Nat → AttemptResult} {retries : Nat}
    {baseDelay : ℚ} {e : FetchErr} (hr : 0 < retries)
    (hall : ∀ j, j < retries → isRetryClassified (attempts j) = true)
    (hlast : attemptStep (attempts (retries - 1)) = LoopStep.failed e) :
    fetchWithRetry attempts retries baseDelay = (Except.error e, List.range (retries - 1)) := by
  unfold fetchWithRetry
  have h := fetchWithRetryGo_allFail attempts retries 0 [] e hr
    (by simpa using hall) (by simpa using hlast)
  simpa using h

/-- C8: `fetchWithRetry` returns immediately, without retrying or sleeping,
any response whose status is 2xx or a 4xx other than 429; a 429 status, a
status ≥ 500 and a thrown network error are classified as retryable
failures, and when every attempt fails this way the loop sleeps after each
non-final attempt (the sleep after attempt `i` having pre-jitter backoff
component `backoffDelay baseDelay i = baseDelay·1.5^i`, strictly increasing
in `i` for positive base delays) and raises the last observed failure.  In
particular a 503, 503, 200 attempt sequence with the default retry count 3
yields the 200 response after exactly the two sleeps indexed 0 and 1, whose
backoff components `baseDelay·1.5^0 < baseDelay·1.5^1` strictly increase. -/
theorem fetchWithRetry_spec :
    (∀ (attempts : Nat → AttemptResult) (retries : Nat) (baseDelay : ℚ) (r : HttpResponse),
      0 < retries → attempts 0 = AttemptResult.response r →
      responseOk r = true ∨ (400 ≤ r.status ∧ r.status ≤ 499 ∧ r.status ≠ 429) →
      fetchWithRetry attempts retries baseDelay = (Except.ok r, []))
    ∧ (∀ r : HttpResponse, r.status = 429 ∨ 500 ≤ r.status →
      isRetryClassified (AttemptResult.response r) = true)
    ∧ (∀ m : String, isRetryClassified (AttemptResult.netError m) = true)
    ∧ (∀ (attempts : Nat → AttemptResult) (retries : Nat) (baseDelay : ℚ) (e : FetchErr),
      0 < retries →
      (∀ j, j < retries → isRetryClassified (attempts j) = true) →
      attemptStep (attempts (retries - 1)) = LoopStep.failed e →
      fetchWithRetry attempts retries baseDelay = (Except.error e, List.range (retries - 1)))
    ∧ (∀ baseDelay : ℚ, 0 < baseDelay → ∀ i j : Nat, i < j →
      backoffDelay baseDelay i < backoffDelay baseDelay j)
    ∧ fetchWithRetry exAttempts503 3 1000 = (Except.ok exResp200, [0, 1])
    ∧ backoffDelay 1000 0 < backoffDelay 1000 1 := by
  refine ⟨?_, ?_, ?_, ?_, ?_, ?_, ?_⟩
  · intro attempts retries base r hr h0 hcase
    have hd : attemptStep (attempts 0) = LoopStep.done r := by
      rw [h0]
      rcases hcase with h | ⟨h1, h2, h3⟩
      · exact attemptStep_ok h
      · exact attemptStep_client h1 h2 h3
    exact fetchWithRetry_first_done hd hr
  · intro r h
    have hok : responseOk r = false := by
      simp only [responseOk, Bool.and_eq_false_iff, decide_eq_false_iff_not]
      omega
    have hcond : (r.status == 429 || decide (500 ≤ r.status)) = true := by
      rcases h with h | h
      · simp [h]
      · simp [h]
    simp [isRetryClassified, attemptStep, hok, hcond]
  · intro m
    simp [isRetryClassified, attemptStep]
  · intro attempts retries base e hr hall hlast
    exact fetchWithRetry_allFail hr hall hlast
  · intro base hb i j hij
    unfold backoffDelay
    have h32 : (1 : ℚ) < 3 / 2 := by norm_num
    exact mul_lt_mul_of_pos_left (pow_lt_pow_right₀ h32 hij) hb
  · decide
  · norm_num [backoffDelay]

/-- Witness for C8: the universally quantified parts applied at concrete
attempt oracles. -/
theorem fetchWithRetry_spec_witness :
    fetchWithRetry exAttempts404 3 1000 = (Except.ok exResp404, []) ∧
    fetchWithRetry exNetFail 2 500 =
      (Except.error (FetchErr.network "Failed to fetch"), List.range 1) ∧
    backoffDelay 1000 0 < backoffDelay 1000 2 :=
  ⟨fetchWithRetry_spec.1 exAttempts404 3 1000 exResp404 (by decide) rfl
      (Or.inr (by decide)),
    fetchWithRetry_spec.2.2.2.1 exNetFail 2 500 (FetchErr.network "Failed to fetch")
      (by decide) (by decide) rfl,
    fetchWithRetry_spec.2.2.2.2.1 1000 rat_zero_lt_1000 0 2 (by decide)⟩

/-! ## Lemmas: pagination -/

lemma length_concatRange {f : Nat → List ClickUpTask}
    (hlen : ∀ p, (f p).length = 100) :
    ∀ (fuel page : Nat), (concatRange f page fuel).length = 100 * fuel := by
  intro fuel
  induction fuel with
  | zero => intro page; simp [concatRange]
  | succ n ih =>
    intro page
    simp [concatRange, hlen page, ih (page + 1)]
    ring

lemma fetchTeamTasksGo_allFull {pa : Nat → Nat → AttemptResult}
    {f : Nat → List ClickUpTask}
    (hpage : ∀ p, pageResult pa p = PageStep.gotTasks (f p))
    (hlen : ∀ p, (f p).length = 100) :
    ∀ (fuel page : Nat) (acc : List ClickUpTask),
      fetchTeamTasksGo pa page fuel acc =
        (Except.ok (acc ++ concatRange f page fuel), page + fuel) := by
  intro fuel
  induction fuel with
  | zero => intro page acc; simp [fetchTeamTasksGo, concatRange]
  | succ n ih =>
    intro page acc
    have h100 : ¬ ((f page).length < 100) := by rw [hlen]; omega
    rw [show fetchTeamTasksGo pa page (n + 1) acc =
        fetchTeamTasksGo pa (page + 1) n (acc ++ f page) by
      simp [fetchTeamTasksGo, hpage page, h100]]
    rw [ih (page + 1) (acc ++ f page)]
    simp [concatRange]
    omega

lemma fetchTeamTasksGo_stop {pa : Nat → Nat → AttemptResult}
    {f : Nat → List ClickUpTask} {e : PageErr} :
    ∀ (d page fuel : Nat) (acc : List ClickUpTask),
      d < fuel →
      (∀ j, j < d → pageResult pa (page + j) = PageStep.gotTasks (f (page + j)) ∧
        (f (page + j)).length = 100) →
      pageResult pa (page + d) = PageStep.pageFail e →
      0 < acc.length + (concatRange f page d).length →
      fetchTeamTasksGo pa page fuel acc =
        (Except.ok (acc ++ concatRange f page d), page + d + 1) := by
  intro d
  induction d with
  | zero =>
    intro page fuel acc hd hall hfail hne
    obtain ⟨fu, rfl⟩ : ∃ fu, fuel = fu + 1 := ⟨fuel - 1, by omega⟩
    rw [Nat.add_zero] at hfail
    have hacc : 0 < acc.length := by
      simpa [concatRange] using hne
    simp [fetchTeamTasksGo, hfail, hacc, concatRange]
  | succ n ih =>
    intro page fuel acc hd hall hfail hne
    obtain ⟨fu, rfl⟩ : ∃ fu, fuel = fu + 1 := ⟨fuel - 1, by omega⟩
    obtain ⟨h0, h0len⟩ := hall 0 (by omega)
    rw [Nat.add_zero] at h0 h0len
    have h100 : ¬ ((f page).length < 100) := by omega
    rw [show fetchTeamTasksGo pa page (fu + 1) acc =
        fetchTeamTasksGo pa (page + 1) fu (acc ++ f page) by
      simp [fetchTeamTasksGo, h0, h100]]
    have hall2 : ∀ j, j < n → pageResult pa (page + 1 + j) =
        PageStep.gotTasks (f (page + 1 + j)) ∧ (f (page + 1 + j)).length = 100 := by
      intro j hj
      have hidx : page + 1 + j = page + (j + 1) := by omega
      rw [hidx]
      exact hall (j + 1) (by omega)
    have hfail2 : pageResult pa (page + 1 + n) = PageStep.pageFail e := by
      have hidx : page + 1 + n = page + (n + 1) := by omega
      rw [hidx]; exact hfail
    have hne2 : 0 < (acc ++ f page).length + (concatRange f (page + 1) n).length := by
      simp [h0len]
    rw [ih (page + 1) fu (acc ++ f page) (by omega) hall2 hfail2 hne2]
    simp [concatRange]
    omega

/-- C7: when every page request succeeds with exactly 100 tasks, the
pagination loop stops at the 50-page safety cap, having requested pages 0
through 49, and returns the 5000 accumulated tasks. -/
theorem fetchTeamTasks_cap (pa : Nat → Nat → AttemptResult)
    (f : Nat → List ClickUpTask)
    (hpage : ∀ p, pageResult pa p = PageStep.gotTasks (f p))
    (hlen : ∀ p, (f p).length = 100) :
    fetchTeamTasks pa = (Except.ok (concatRange f 0 MAX_PAGES), MAX_PAGES) ∧
      (concatRange f 0 MAX_PAGES).length = 5000 := by
  constructor
  · unfold fetchTeamTasks
    rw [fetchTeamTasksGo_allFull hpage hlen MAX_PAGES 0 []]
    simp
  · rw [length_concatRange hlen]
    rfl

/-- Witness for C7: a page source that always returns a full page of 100. -/
theorem fetchTeamTasks_cap_witness :
    fetchTeamTasks exFullPages =
      (Except.ok (concatRange (fun _ => exHundred) 0 MAX_PAGES), MAX_PAGES) ∧
      (concatRange (fun _ => exHundred) 0 MAX_PAGES).length = 5000 :=
  fetchTeamTasks_cap exFullPages (fun _ => exHundred) (fun _ => rfl) (fun _ => rfl)

/-- C6: once at least one page has succeeded (with full pages of 100 up to
page `k - 1`), a failing page `k` stops pagination and the accumulated tasks
of the successful pages are returned; a failure on the very first page
propagates as an error.  In particular, with pages
`[A (success, 100 items), B (failure)]` the result is exactly A's items. -/
theorem fetchTeamTasks_partial_failure :
    (∀ (pa : Nat → Nat → AttemptResult) (f : Nat → List ClickUpTask) (k : Nat) (e : PageErr),
      0 < k → k < MAX_PAGES →
      (∀ j, j < k → pageResult pa j = PageStep.gotTasks (f j)) →
      (∀ j, j < k → (f j).length = 100) →
      pageResult pa k = PageStep.pageFail e →
      fetchTeamTasks pa = (Except.ok (concatRange f 0 k), k + 1))
    ∧ (∀ (pa : Nat → Nat → AttemptResult) (e : PageErr),
      pageResult pa 0 = PageStep.pageFail e →
      fetchTeamTasks pa = (Except.error e, 1))
    ∧ fetchTeamTasks exPagesAB = (Except.ok exHundred, 2) := by
  refine ⟨?_, ?_, ?_⟩
  · intro pa f k e hk hkmax hpages hlens hfail
    unfold fetchTeamTasks
    have hall : ∀ j, j < k → pageResult pa (0 + j) = PageStep.gotTasks (f (0 + j)) ∧
        (f (0 + j)).length = 100 := by
      intro j hj
      rw [Nat.zero_add]
      exact ⟨hpages j hj, hlens j hj⟩
    have hne : 0 < ([] : List ClickUpTask).length + (concatRange f 0 k).length := by
      have h1 := hlens 0 hk
      cases k with
      | zero => omega
      | succ n => simp [concatRange, h1]
    rw [fetchTeamTasksGo_stop k 0 MAX_PAGES [] hkmax hall (by simpa using hfail) hne]
    simp
  · intro pa e hfail
    unfold fetchTeamTasks
    rw [show (MAX_PAGES : Nat) = 49 + 1 from rfl]
    simp [fetchTeamTasksGo, hfail]
  · decide

/-- Witness for C6: the general parts applied to the concrete
`[A (success, 100), B (failure)]` oracle and to an always-failing oracle. -/
theorem fetchTeamTasks_partial_failure_witness :
    fetchTeamTasks exPagesAB = (Except.ok (concatRange (fun _ => exHundred) 0 1), 2) ∧
    fetchTeamTasks (fun _ _ => AttemptResult.netError "boom") =
      (Except.error (PageErr.fetchFailed (FetchErr.network "boom")), 1) :=
  ⟨fetchTeamTasks_partial_failure.1 exPagesAB (fun _ => exHundred) 1
      (PageErr.fetchFailed (FetchErr.network "Failed to fetch"))
      (by decide) (by decide) (by decide) (by decide) (by decide),
    fetchTeamTasks_partial_failure.2.1 (fun _ _ => AttemptResult.netError "boom")
      (PageErr.fetchFailed (FetchErr.network "boom")) (by decide)⟩

/-- C5 (amended): an OK-status task-page response with an HTML body (DOCTYPE
marker) is detected after the resilient fetch layer has already returned the
response as a success (no sleep, no retry of the underlying request); the
detection raises a page-level error that is handled by the pagination
partial-failure policy — accumulated tasks are returned when a prior page
succeeded, and the error propagates when it was the first page. -/
theorem fetchTeamTasks_html_detection :
    (∀ (r : HttpResponse) (s : String), responseOk r = true →
      r.body = RespBody.text s → stringIncludes s doctypeMarker = true →
      processPage (Except.ok r) = PageStep.pageFail PageErr.htmlProxyError)
    ∧ (∀ (attempts : Nat → AttemptResult) (retries : Nat) (baseDelay : ℚ) (r : HttpResponse),
      0 < retries → attempts 0 = AttemptResult.response r → responseOk r = true →
      fetchWithRetry attempts retries baseDelay = (Except.ok r, []))
    ∧ (∀ (pa : Nat → Nat → AttemptResult) (ts : List ClickUpTask),
      pageResult pa 0 = PageStep.gotTasks ts → ts.length = 100 →
      pageResult pa 1 = PageStep.pageFail PageErr.htmlProxyError →
      fetchTeamTasks pa = (Except.ok ts, 2))
    ∧ (∀ pa : Nat → Nat → AttemptResult,
      pageResult pa 0 = PageStep.pageFail PageErr.htmlProxyError →
      fetchTeamTasks pa = (Except.error PageErr.htmlProxyError, 1)) := by
  refine ⟨?_, ?_, ?_, ?_⟩
  · intro r s hok hbody hmarker
    simp [processPage, hok, hbody, hmarker]
  · intro attempts retries baseDelay r hr h0 hok
    have hd : attemptStep (attempts 0) = LoopStep.done r := by
      rw [h0]; exact attemptStep_ok hok
    exact fetchWithRetry_first_done hd hr
  · intro pa ts h0 hlen h1
    unfold fetchTeamTasks
    have hall : ∀ j, j < 1 →
        pageResult pa (0 + j) = PageStep.gotTasks ((fun _ => ts) (0 + j)) ∧
          ((fun _ => ts) (0 + j)).length = 100 := by
      intro j hj
      have hj0 : j = 0 := by omega
      subst hj0
      exact ⟨h0, hlen⟩
    have hne : 0 < ([] : List ClickUpTask).length +
        (concatRange (fun _ => ts) 0 1).length := by
      simp [concatRange, hlen]
    have h := @fetchTeamTasksGo_stop pa (fun _ => ts) PageErr.htmlProxyError
      1 0 MAX_PAGES [] (by decide) hall (by simpa using h1) hne
    rw [h]
    simp [concatRange]
  · intro pa hfail
    unfold fetchTeamTasks
    rw [show (MAX_PAGES : Nat) = 49 + 1 from rfl]
    simp [fetchTeamTasksGo, hfail]

/-- Witness for C5 (amended) at the concrete HTML-returning oracles. -/
theorem fetchTeamTasks_html_detection_witness :
    processPage (Except.ok exHtmlResp) = PageStep.pageFail PageErr.htmlProxyError ∧
    fetchWithRetry (exHtmlAttempts 0) 4 1000 = (Except.ok exHtmlResp, []) ∧
    fetchTeamTasks exPagesAHtml = (Except.ok exHundred, 2) ∧
    fetchTeamTasks exHtmlAttempts = (Except.error PageErr.htmlProxyError, 1) :=
  ⟨fetchTeamTasks_html_detection.1 exHtmlResp exHtmlBody (by decide) rfl (by decide),
    fetchTeamTasks_html_detection.2.1 (exHtmlAttempts 0) 4 1000 exHtmlResp
      (by decide) rfl (by decide),
    fetchTeamTasks_html_detection.2.2.1 exPagesAHtml exHundred
      (by decide) (by decide) (by decide),
    fetchTeamTasks_html_detection.2.2.2 exHtmlAttempts (by decide)⟩

/-- C5 counterexample to the claim as stated: the OK-status HTML response is
not classified as a retryable failure by the resilient fetch layer — the
layer returns it as a success with zero sleeps even though the very next
attempt of the underlying request would have produced valid JSON — and the
whole call fails with the page-level HTML error instead of retrying. -/
theorem fetchTeamTasks_html_retry_counterexample :
    responseOk exHtmlResp = true ∧
    stringIncludes exHtmlBody doctypeMarker = true ∧
    isRetryClassified (AttemptResult.response exHtmlResp) = false ∧
    fetchWithRetry (exHtmlAttempts 0) 4 1000 = (Except.ok exHtmlResp, []) ∧
    exHtmlAttempts 0 1 = AttemptResult.response exResp200 ∧
    fetchTeamTasks exHtmlAttempts = (Except.error PageErr.htmlProxyError, 1) := by
  decide

/-! ## Lemmas: aggregation engine -/

lemma overdue_dueSoon_exclusive (now : Int) (t : ClickUpTask) :
    isOverdue now t = true → isDueSoon now t = false := by
  unfold isOverdue isDueSoon
  cases t.due_date with
  | none => simp
  | some d =>
    intro h
    have hlt : d < now := by
      simp only [Bool.and_eq_true, decide_eq_true_eq] at h
      exact h.2
    have hnle : ¬ (now ≤ d) := by omega
    simp [hnle]

lemma statsWF_updateStats (now : Int) (s : ProjectStats) (t : ClickUpTask)
    (h : statsWF s) : statsWF (updateStats now s t) := by
  obtain ⟨h1, h2⟩ := h
  have hex := overdue_dueSoon_exclusive now t
  unfold statsWF updateStats
  cases hc : isClosedTask t
  · cases ho : isOverdue now t
    · cases hd : isDueSoon now t
      · simp only [Bool.false_eq_true, if_false]
        exact ⟨by omega, by omega⟩
      · simp only [Bool.false_eq_true, if_false, if_true]
        exact ⟨by omega, by omega⟩
    · have hdf : isDueSoon now t = false := hex ho
      simp only [hdf, Bool.false_eq_true, if_false, if_true]
      exact ⟨by omega, by omega⟩
  · simp only [if_true]
    exact ⟨by omega, by omega⟩

lemma statsWF_newProject (gid gn fn sn : String) :
    statsWF (newProject gid gn fn sn).stats := by
  unfold statsWF newProject
  simp

lemma jsRoundPercent_eq_round (c t : Nat) (ht : 0 < t) :
    (jsRoundPercent c t : ℤ) = round ((100 * (c : ℚ)) / (t : ℚ)) := by
  have hb : 0 < 2 * t := by omega
  have hbQ : (0 : ℚ) < ((2 * t : ℕ) : ℚ) := by exact_mod_cast hb
  have hmod := Nat.div_add_mod (200 * c + t) (2 * t)
  have hltm := Nat.mod_lt (200 * c + t) hb
  have h1 : 2 * t * ((200 * c + t) / (2 * t)) ≤ 200 * c + t := by omega
  have h2 : 200 * c + t < 2 * t * ((200 * c + t) / (2 * t)) + 2 * t := by omega
  have htQ : ((t : ℚ)) ≠ 0 := by
    exact_mod_cast Nat.pos_iff_ne_zero.mp ht
  have key : (100 * (c : ℚ)) / (t : ℚ) + 1 / 2 =
      ((200 * c + t : ℕ) : ℚ) / ((2 * t : ℕ) : ℚ) := by
    push_cast
    field_simp
    ring
  rw [round_eq, key]
  unfold jsRoundPercent
  symm
  rw [Int.floor_eq_iff]
  constructor
  · rw [le_div_iff₀ hbQ, mul_comm]
    exact_mod_cast h1
  · rw [div_lt_iff₀ hbQ]
    have h2x : 200 * c + t < ((200 * c + t) / (2 * t) + 1) * (2 * t) := by nlinarith [h2]
    exact_mod_cast h2x

lemma groupKey_some_list {t : ClickUpTask} {g : String × String × String}
    (h : groupKey t = some g) : t.list ≠ none := by
  intro hl
  unfold groupKey at h
  rw [hl] at h
  exact Option.noConfusion h

lemma groupKey_folder {t : ClickUpTask} {f : ClickUpFolder}
    (hf : t.folder = some f) (hid : f.id ≠ "") {l : ClickUpList} (hl : t.list = some l) :
    groupKey t = some (f.id, f.name, f.name) := by
  unfold groupKey
  rw [hl, hf]
  simp [hid]

lemma groupKey_no_folder {t : ClickUpTask} {l : ClickUpList} (hl : t.list = some l)
    (hf : t.folder = none ∨ ∃ f, t.folder = some f ∧ f.id = "") :
    groupKey t = some (l.id, l.name ++ " (List)", "No Folder") := by
  unfold groupKey
  rw [hl]
  rcases hf with hf | ⟨f, hf, hfid⟩
  · rw [hf]
  · rw [hf]
    simp [hfid]

lemma addTaskToProject_id (now : Int) (p : ProjectData) (t : ClickUpTask) :
    (addTaskToProject now p t).id = p.id := rfl

lemma addTaskToProject_name (now : Int) (p : ProjectData) (t : ClickUpTask) :
    (addTaskToProject now p t).name = p.name := rfl

lemma addTaskToProject_tasks (now : Int) (p : ProjectData) (t : ClickUpTask) :
    (addTaskToProject now p t).tasks = p.tasks ++ [t] := rfl

lemma insertTask_none {now : Int} {m : List (String × ProjectData)} {t : ClickUpTask}
    (hG : groupKey t = none) : insertTask now m t = m := by
  unfold insertTask
  rw [hG]

lemma insertTask_keyed {now : Int} {m : List (String × ProjectData)} {t : ClickUpTask}
    {gid gn fn : String} (hG : groupKey t = some (gid, gn, fn)) :
    insertTask now m t = insertTaskKeyed now m t gid gn fn := by
  unfold insertTask
  rw [hG]

lemma insertTask_mem_preserve {now : Int} {m : List (String × ProjectData)}
    {t0 : ClickUpTask} {gid : String} {p : ProjectData}
    (hmem : (gid, p) ∈ m) (ht : t0 ∈ p.tasks) (t : ClickUpTask) :
    ∃ q, (gid, q) ∈ insertTask now m t ∧ t0 ∈ q.tasks := by
  cases hG : groupKey t with
  | none => rw [insertTask_none hG]; exact ⟨p, hmem, ht⟩
  | some g =>
    obtain ⟨g1, g2, g3⟩ := g
    rw [insertTask_keyed hG]
    unfold insertTaskKeyed
    by_cases hAny : (m.any (fun kv => kv.1 == g1)) = true
    · rw [if_pos hAny]
      by_cases hEq : gid = g1
      · refine ⟨addTaskToProject now p t, ?_, ?_⟩
        · refine List.mem_map.mpr ⟨(gid, p), hmem, ?_⟩
          simp [hEq]
        · rw [addTaskToProject_tasks]
          exact List.mem_append_left _ ht
      · refine ⟨p, ?_, ht⟩
        refine List.mem_map.mpr ⟨(gid, p), hmem, ?_⟩
        simp [hEq]
    · rw [if_neg hAny]
      exact ⟨p, List.mem_append_left _ hmem, ht⟩

lemma insertTask_mem_create {now : Int} {m : List (String × ProjectData)}
    {t : ClickUpTask} {gid gn fn : String}
    (hG : groupKey t = some (gid, gn, fn)) :
    ∃ q, (gid, q) ∈ insertTask now m t ∧ t ∈ q.tasks := by
  rw [insertTask_keyed hG]
  unfold insertTaskKeyed
  by_cases hAny : (m.any (fun kv => kv.1 == gid)) = true
  · rw [if_pos hAny]
    obtain ⟨kv, hkv, hbeq⟩ := List.any_eq_true.mp hAny
    have hk : kv.1 = gid := by simpa using hbeq
    refine ⟨addTaskToProject now kv.2 t, ?_, ?_⟩
    · refine List.mem_map.mpr ⟨kv, hkv, ?_⟩
      simp [hk]
    · rw [addTaskToProject_tasks]
      exact List.mem_append_right _ (by simp)
  · rw [if_neg hAny]
    refine ⟨addTaskToProject now (newProject gid gn fn (spaceNameOf t)) t, ?_, ?_⟩
    · exact List.mem_append_right _ (by simp)
    · rw [addTaskToProject_tasks]
      exact List.mem_append_right _ (by simp)

lemma foldl_insertTask_preserve {now : Int} {gid : String} {t0 : ClickUpTask} :
    ∀ (ts : List ClickUpTask) (m : List (String × ProjectData)),
      (∃ p, (gid, p) ∈ m ∧ t0 ∈ p.tasks) →
      ∃ q, (gid, q) ∈ ts.foldl (insertTask now) m ∧ t0 ∈ q.tasks := by
  intro ts
  induction ts with
  | nil => intro m h; simpa using h
  | cons t rest ih =>
    intro m h
    obtain ⟨p, hmem, ht⟩ := h
    exact ih (insertTask now m t) (insertTask_mem_preserve hmem ht t)

lemma buildProjectsMap_task_lands {now : Int} {gid gn fn : String} {t0 : ClickUpTask} :
    ∀ (ts : List ClickUpTask) (m : List (String × ProjectData)),
      t0 ∈ ts → groupKey t0 = some (gid, gn, fn) →
      ∃ q, (gid, q) ∈ ts.foldl (insertTask now) m ∧ t0 ∈ q.tasks := by
  intro ts
  induction ts with
  | nil => intro m h; simp at h
  | cons t rest ih =>
    intro m hmem hG
    rcases List.mem_cons.mp hmem with heq | hmem2
    · subst heq
      exact foldl_insertTask_preserve rest _ (insertTask_mem_create hG)
    · exact ih _ hmem2 hG

lemma mapWF_insertTask {now : Int} {m : List (String × ProjectData)} (t : ClickUpTask)
    (h : mapWF m) : mapWF (insertTask now m t) := by
  obtain ⟨hnodup, hent⟩ := h
  cases hG : groupKey t with
  | none => rw [insertTask_none hG]; exact ⟨hnodup, hent⟩
  | some g =>
    obtain ⟨gid, gn, fn⟩ := g
    have hlist : t.list ≠ none := groupKey_some_list hG
    rw [insertTask_keyed hG]
    unfold insertTaskKeyed
    by_cases hAny : (m.any (fun kv => kv.1 == gid)) = true
    · rw [if_pos hAny]
      constructor
      · have hkeys : (m.map (fun kv =>
            if (kv.1 == gid) = true then (kv.1, addTaskToProject now kv.2 t) else kv)).map
              Prod.fst = m.map Prod.fst := by
          rw [List.map_map]
          apply List.map_congr_left
          intro kv _
          by_cases hk : kv.1 = gid <;> simp [hk]
        rw [hkeys]
        exact hnodup
      · intro kv hkv
        obtain ⟨kv0, hkv0, heq⟩ := List.mem_map.mp hkv
        obtain ⟨hid0, hwf0, hl0⟩ := hent kv0 hkv0
        by_cases hk : (kv0.1 == gid) = true
        · rw [if_pos hk] at heq
          subst heq
          refine ⟨hid0, statsWF_updateStats now _ t hwf0, ?_⟩
          intro t2 ht2
          rw [addTaskToProject_tasks] at ht2
          rcases List.mem_append.mp ht2 with h2 | h2
          · exact hl0 t2 h2
          · simp at h2
            subst h2
            exact hlist
        · rw [if_neg hk] at heq
          subst heq
          exact ⟨hid0, hwf0, hl0⟩
    · rw [if_neg hAny]
      have hnotin : gid ∉ m.map Prod.fst := by
        intro hin
        obtain ⟨kv, hkv, hk⟩ := List.mem_map.mp hin
        apply hAny
        exact List.any_eq_true.mpr ⟨kv, hkv, by simp [hk]⟩
      constructor
      · rw [List.map_append]
        simp only [List.map_cons, List.map_nil]
        rw [List.nodup_append]
        exact ⟨hnodup, List.nodup_singleton gid, by
          intro a ha hb
          simp at hb
          subst hb
          exact hnotin ha⟩
      · intro kv hkv
        rcases List.mem_append.mp hkv with h2 | h2
        · exact hent kv h2
        · simp at h2
          subst h2
          refine ⟨rfl, statsWF_updateStats now _ t (statsWF_newProject gid gn fn _), ?_⟩
          intro t2 ht2
          rw [addTaskToProject_tasks] at ht2
          simp [newProject] at ht2
          subst ht2
          exact hlist

lemma mapWF_foldl {now : Int} :
    ∀ (ts : List ClickUpTask) (m : List (String × ProjectData)),
      mapWF m → mapWF (ts.foldl (insertTask now) m) := by
  intro ts
  induction ts with
  | nil => intro m h; simpa using h
  | cons t rest ih => intro m h; exact ih _ (mapWF_insertTask t h)

lemma buildProjectsMap_WF (now : Int) (tasks : List ClickUpTask) :
    mapWF (buildProjectsMap now tasks) := by
  apply mapWF_foldl
  exact ⟨List.nodup_nil, by simp⟩

lemma entry_unique {m : List (String × ProjectData)}
    (hnodup : (m.map Prod.fst).Nodup) {k : String} {p q : ProjectData}
    (hp : (k, p) ∈ m) (hq : (k, q) ∈ m) : p = q := by
  induction m with
  | nil => simp at hp
  | cons kv rest ih =>
    rw [List.map_cons, List.nodup_cons] at hnodup
    rcases List.mem_cons.mp hp with hp1 | hp2
    · rcases List.mem_cons.mp hq with hq1 | hq2
      · rw [← hp1] at hq1
        exact (Prod.mk.injEq _ _ _ _).mp hq1.symm |>.2
      · exfalso
        apply hnodup.1
        have hk : kv.1 = k := by rw [← hp1]
        rw [hk]
        exact List.mem_map.mpr ⟨(k, q), hq2, rfl⟩
    · rcases List.mem_cons.mp hq with hq1 | hq2
      · exfalso
        apply hnodup.1
        have hk : kv.1 = k := by rw [← hq1]
        rw [hk]
        exact List.mem_map.mpr ⟨(k, p), hp2, rfl⟩
      · exact ih hnodup.2 hp2 hq2

lemma mem_process_iff {now : Int} {tasks : List ClickUpTask} {p : ProjectData} :
    p ∈ processTasksIntoProjects now tasks ↔
      ∃ kv ∈ buildProjectsMap now tasks, finalizeProject kv.2 = p := by
  unfold processTasksIntoProjects
  rw [(List.perm_insertionSort projectDisplayOrder _).mem_iff]
  constructor
  · intro h
    obtain ⟨kv, hkv, heq⟩ := List.mem_map.mp h
    exact ⟨kv, hkv, heq⟩
  · intro ⟨kv, hkv, heq⟩
    exact List.mem_map.mpr ⟨kv, hkv, heq⟩

lemma finalizeProject_stats (p : ProjectData) :
    (finalizeProject p).stats =
      { p.stats with percentComplete :=
          if p.stats.totalTasks > 0
          then jsRoundPercent p.stats.completedTasks p.stats.totalTasks else 0 } := rfl

lemma finalizeProject_risk (p : ProjectData) :
    (finalizeProject p).riskLevel = computeRisk (finalizeProject p).stats := rfl

lemma finalizeProject_tasks (p : ProjectData) :
    (finalizeProject p).tasks = p.tasks := rfl

lemma finalizeProject_id (p : ProjectData) : (finalizeProject p).id = p.id := rfl

lemma finalizeProject_name (p : ProjectData) : (finalizeProject p).name = p.name := rfl

/-- C1: every project produced by the aggregation engine is classified High
when it has an overdue task, else Medium when something is due within 7 days
and completion is below 50 percent, else Low. -/
theorem processTasks_riskLevel (now : Int) (tasks : List ClickUpTask) (p : ProjectData)
    (hmem : p ∈ processTasksIntoProjects now tasks) :
    (0 < p.stats.overdueTasks → p.riskLevel = RiskLevel.High) ∧
    (p.stats.overdueTasks = 0 → 0 < p.stats.dueNext7Days → p.stats.percentComplete < 50 →
      p.riskLevel = RiskLevel.Medium) ∧
    (p.stats.overdueTasks = 0 → (p.stats.dueNext7Days = 0 ∨ 50 ≤ p.stats.percentComplete) →
      p.riskLevel = RiskLevel.Low) := by
  obtain ⟨kv, hkv, hp⟩ := mem_process_iff.mp hmem
  have hrisk : p.riskLevel = computeRisk p.stats := by
    rw [← hp]
    exact finalizeProject_risk kv.2
  rw [hrisk]
  unfold computeRisk
  refine ⟨fun h => ?_, fun h0 hd hpc => ?_, fun h0 hcase => ?_⟩
  · rw [if_pos h]
  · rw [if_neg (by omega), if_pos ⟨hd, hpc⟩]
  · have hnot : ¬ (0 < p.stats.dueNext7Days ∧ p.stats.percentComplete < 50) := by
      rintro ⟨hd, hpc⟩
      rcases hcase with h | h <;> omega
    rw [if_neg (by omega), if_neg hnot]

/-- Witness for C1: the spec §8 scenario project. -/
theorem processTasks_riskLevel_witness :
    (0 < exProjOps.stats.overdueTasks → exProjOps.riskLevel = RiskLevel.High) ∧
    (exProjOps.stats.overdueTasks = 0 → 0 < exProjOps.stats.dueNext7Days →
      exProjOps.stats.percentComplete < 50 → exProjOps.riskLevel = RiskLevel.Medium) ∧
    (exProjOps.stats.overdueTasks = 0 →
      (exProjOps.stats.dueNext7Days = 0 ∨ 50 ≤ exProjOps.stats.percentComplete) →
      exProjOps.riskLevel = RiskLevel.Low) :=
  processTasks_riskLevel 0 [exTask1, exTask2] exProjOps (by decide)

/-- C2: in every produced project, open and completed tasks partition the
total; the overdue and due-soon counts — which no single task can
contribute to simultaneously — fit inside the open count; and the completion
percentage is the rounding of `100·completedTasks/totalTasks`, defaulting to
0 when there are no tasks. -/
theorem processTasks_stats_invariants (now : Int) (tasks : List ClickUpTask)
    (p : ProjectData) (hmem : p ∈ processTasksIntoProjects now tasks) :
    p.stats.openTasks + p.stats.completedTasks = p.stats.totalTasks ∧
    p.stats.overdueTasks + p.stats.dueNext7Days ≤ p.stats.openTasks ∧
    (∀ t : ClickUpTask, isOverdue now t = true → isDueSoon now t = false) ∧
    ((p.stats.percentComplete : ℤ) =
      if p.stats.totalTasks = 0 then 0
      else round ((100 * (p.stats.completedTasks : ℚ)) / (p.stats.totalTasks : ℚ))) := by
  obtain ⟨kv, hkv, hp⟩ := mem_process_iff.mp hmem
  obtain ⟨_, hwf, _⟩ := (buildProjectsMap_WF now tasks).2 kv hkv
  obtain ⟨h1, h2⟩ := hwf
  refine ⟨?_, ?_, fun t => overdue_dueSoon_exclusive now t, ?_⟩
  · rw [← hp]
    exact h1
  · rw [← hp]
    exact h2
  · rw [← hp]
    by_cases ht : kv.2.stats.totalTasks = 0
    · simp [finalizeProject, ht]
    · have htpos : 0 < kv.2.stats.totalTasks := by omega
      have hpc : (finalizeProject kv.2).stats.percentComplete =
          jsRoundPercent kv.2.stats.completedTasks kv.2.stats.totalTasks := by
        simp [finalizeProject, htpos]
      have htot : (finalizeProject kv.2).stats.totalTasks = kv.2.stats.totalTasks := rfl
      have hcomp : (finalizeProject kv.2).stats.completedTasks = kv.2.stats.completedTasks := rfl
      rw [hpc, htot, hcomp, if_neg ht]
      exact jsRoundPercent_eq_round _ _ htpos

/-- Witness for C2: the spec §8 scenario project. -/
theorem processTasks_stats_invariants_witness :
    exProjOps.stats.openTasks + exProjOps.stats.completedTasks = exProjOps.stats.totalTasks ∧
    exProjOps.stats.overdueTasks + exProjOps.stats.dueNext7Days ≤ exProjOps.stats.openTasks ∧
    (∀ t : ClickUpTask, isOverdue 0 t = true → isDueSoon 0 t = false) ∧
    ((exProjOps.stats.percentComplete : ℤ) =
      if exProjOps.stats.totalTasks = 0 then 0
      else round ((100 * (exProjOps.stats.completedTasks : ℚ)) / (exProjOps.stats.totalTasks : ℚ))) :=
  processTasks_stats_invariants 0 [exTask1, exTask2] exProjOps (by decide)

lemma insertTask_name {now : Int} {m : List (String × ProjectData)} {t : ClickUpTask}
    {gid gname : String}
    (hm : ∀ kv ∈ m, kv.1 = gid → kv.2.name = gname)
    (ht : ∀ gn fn, groupKey t = some (gid, gn, fn) → gn = gname) :
    ∀ kv ∈ insertTask now m t, kv.1 = gid → kv.2.name = gname := by
  cases hG : groupKey t with
  | none => rw [insertTask_none hG]; exact hm
  | some g =>
    obtain ⟨g1, g2, g3⟩ := g
    rw [insertTask_keyed hG]
    unfold insertTaskKeyed
    by_cases hAny : (m.any (fun kv => kv.1 == g1)) = true
    · rw [if_pos hAny]
      intro kv hkv hk
      obtain ⟨kv0, hkv0, heq⟩ := List.mem_map.mp hkv
      by_cases hk0 : (kv0.1 == g1) = true
      · rw [if_pos hk0] at heq
        subst heq
        exact hm kv0 hkv0 hk
      · rw [if_neg hk0] at heq
        subst heq
        exact hm kv0 hkv0 hk
    · rw [if_neg hAny]
      intro kv hkv hk
      rcases List.mem_append.mp hkv with h2 | h2
      · exact hm kv h2 hk
      · simp only [List.mem_singleton] at h2
        subst h2
        have hg1 : g1 = gid := hk
        exact ht g2 g3 (hg1 ▸ hG)

lemma buildProjectsMap_name {now : Int} {gid gname : String} :
    ∀ (ts : List ClickUpTask) (m : List (String × ProjectData)),
      (∀ t ∈ ts, ∀ gn fn, groupKey t = some (gid, gn, fn) → gn = gname) →
      (∀ kv ∈ m, kv.1 = gid → kv.2.name = gname) →
      ∀ kv ∈ ts.foldl (insertTask now) m, kv.1 = gid → kv.2.name = gname := by
  intro ts
  induction ts with
  | nil => intro m _ hm; simpa using hm
  | cons t rest ih =>
    intro m hts hm
    exact ih (insertTask now m t)
      (fun t2 ht2 => hts t2 (List.mem_cons_of_mem _ ht2))
      (insertTask_name hm (hts t (List.mem_cons_self _ _)))

/-- C3 (amended): two tasks with list references whose folders carry the same
non-empty id always land in the same project record, in any input order; a
task with no folder (or a folder with an empty, falsy id) is grouped under
its list's id and — when every input task mapping to that group id agrees on
the suffixed display name, in particular when no folder id collides with the
list id and duplicate list ids carry equal names — the project's display
name is the list name with `" (List)"` appended; a task with no list
reference appears in no project. -/
theorem processTasks_grouping (now : Int) (tasks : List ClickUpTask) :
    (∀ t1 ∈ tasks, ∀ t2 ∈ tasks, ∀ l1 l2 f1 f2,
      t1.list = some l1 → t2.list = some l2 →
      t1.folder = some f1 → t2.folder = some f2 → f1.id = f2.id → f1.id ≠ "" →
      ∃ p ∈ processTasksIntoProjects now tasks, t1 ∈ p.tasks ∧ t2 ∈ p.tasks)
    ∧ (∀ t ∈ tasks, ∀ l, t.list = some l →
      (t.folder = none ∨ ∃ f, t.folder = some f ∧ f.id = "") →
      ∃ p ∈ processTasksIntoProjects now tasks, t ∈ p.tasks ∧ p.id = l.id ∧
        ((∀ t2 ∈ tasks, ∀ gn fn, groupKey t2 = some (l.id, gn, fn) →
            gn = l.name ++ " (List)") →
          p.name = l.name ++ " (List)"))
    ∧ (∀ t : ClickUpTask, t.list = none →
      ∀ p ∈ processTasksIntoProjects now tasks, t ∉ p.tasks) := by
  refine ⟨?_, ?_, ?_⟩
  · intro t1 h1 t2 h2 l1 l2 f1 f2 hl1 hl2 hf1 hf2 hid hne
    have hG1 : groupKey t1 = some (f1.id, f1.name, f1.name) := groupKey_folder hf1 hne hl1
    have hne2 : f2.id ≠ "" := hid ▸ hne
    have hG2 : groupKey t2 = some (f1.id, f2.name, f2.name) := by
      rw [hid]
      exact groupKey_folder hf2 hne2 hl2
    obtain ⟨q1, hq1, ht1⟩ := buildProjectsMap_task_lands tasks [] h1 hG1
    obtain ⟨q2, hq2, ht2⟩ := buildProjectsMap_task_lands tasks [] h2 hG2
    have hq : q1 = q2 := entry_unique (buildProjectsMap_WF now tasks).1 hq1 hq2
    refine ⟨finalizeProject q1, mem_process_iff.mpr ⟨(f1.id, q1), hq1, rfl⟩, ?_, ?_⟩
    · rw [finalizeProject_tasks]; exact ht1
    · rw [finalizeProject_tasks, hq]; exact ht2
  · intro t hmem l hl hf
    have hG : groupKey t = some (l.id, l.name ++ " (List)", "No Folder") :=
      groupKey_no_folder hl hf
    obtain ⟨q, hq, ht⟩ := buildProjectsMap_task_lands tasks [] hmem hG
    refine ⟨finalizeProject q, mem_process_iff.mpr ⟨(l.id, q), hq, rfl⟩, ?_, ?_, ?_⟩
    · rw [finalizeProject_tasks]; exact ht
    · rw [finalizeProject_id]
      exact ((buildProjectsMap_WF now tasks).2 (l.id, q) hq).1
    · intro hcons
      rw [finalizeProject_name]
      exact buildProjectsMap_name tasks [] hcons (by simp) (l.id, q) hq rfl
  · intro t hl p hp ht
    obtain ⟨kv, hkv, hfin⟩ := mem_process_iff.mp hp
    obtain ⟨_, _, htasks⟩ := (buildProjectsMap_WF now tasks).2 kv hkv
    rw [← hfin, finalizeProject_tasks] at ht
    exact htasks t ht hl

/-- C3 counterexample to the claim as stated: two tasks whose folders share
the empty id `""` do not land in the same project — the empty id is falsy,
so each groups under its own list. -/
theorem processTasks_grouping_counterexample :
    exTaskA.folder = some exFolderEmptyId ∧ exTaskB.folder = some exFolderEmptyId ∧
    ¬ ∃ p ∈ processTasksIntoProjects 0 [exTaskA, exTaskB],
        exTaskA ∈ p.tasks ∧ exTaskB ∈ p.tasks := by decide

/-- Witness for C3 (amended): shared folder on the §8 tasks, list fallback
with its display suffix, and skipping of a listless task. -/
theorem processTasks_grouping_witness :
    (∃ p ∈ processTasksIntoProjects 0 [exTask1, exTask2],
      exTask1 ∈ p.tasks ∧ exTask2 ∈ p.tasks) ∧
    (∃ p ∈ processTasksIntoProjects 0 [exTaskA], exTaskA ∈ p.tasks ∧ p.id = exList1.id ∧
      ((∀ t2 ∈ [exTaskA], ∀ gn fn, groupKey t2 = some (exList1.id, gn, fn) →
          gn = exList1.name ++ " (List)") →
        p.name = exList1.name ++ " (List)")) ∧
    (∀ p ∈ processTasksIntoProjects 0 [exTaskNoList], exTaskNoList ∉ p.tasks) :=
  ⟨(processTasks_grouping 0 [exTask1, exTask2]).1 exTask1 (by decide) exTask2 (by decide)
      exList1 exList1 exFolder1 exFolder1 rfl rfl rfl rfl rfl (by decide),
    (processTasks_grouping 0 [exTaskA]).2.1 exTaskA (by decide) exList1 rfl
      (Or.inr ⟨exFolderEmptyId, rfl, rfl⟩),
    (processTasks_grouping 0 [exTaskNoList]).2.2 exTaskNoList rfl⟩

/-! ## Lemmas: comment enrichment -/

lemma candidateTasks_mem {now : Int} :
    ∀ (ps : List ProjectData) (idx : Nat) (item : FetchItem),
      item ∈ candidateTasks now ps idx →
      ∃ p ∈ ps, ∃ t ∈ p.tasks, isRecentlyUpdated now t = true ∧
        item.taskId = t.id ∧ item.taskName = t.name := by
  intro ps
  induction ps with
  | nil => intro idx item h; simp [candidateTasks] at h
  | cons p rest ih =>
    intro idx item h
    unfold candidateTasks at h
    rcases List.mem_append.mp h with h1 | h2
    · obtain ⟨t, ht, heq⟩ := List.mem_map.mp h1
      obtain ⟨htmem, hrec⟩ := List.mem_filter.mp ht
      subst heq
      exact ⟨p, List.mem_cons_self _ _, t, htmem, hrec, rfl, rfl⟩
    · obtain ⟨p2, hp2, t, ht, hrest⟩ := ih (idx + 1) item h2
      exact ⟨p2, List.mem_cons_of_mem _ hp2, t, ht, hrest⟩

lemma fetchResults_mem {fc : String → List ClickUpComment} {items : List FetchItem}
    {res : FetchResult} (h : res ∈ fetchResults fc items) :
    res.toFetchItem ∈ items ∧ res.comments = fc res.taskId := by
  obtain ⟨item, hitem, heq⟩ := List.mem_map.mp h
  subst heq
  exact ⟨hitem, rfl⟩

lemma stampComments_stamped {cs : List ClickUpComment} {tid tname : String} :
    ∀ c ∈ stampComments cs tid tname, c.task_id = some tid ∧ c.task_name = some tname := by
  intro c hc
  obtain ⟨c0, _, heq⟩ := List.mem_map.mp hc
  subst heq
  exact ⟨rfl, rfl⟩

lemma stampComments_mem_inv {cs : List ClickUpComment} {tid tname : String}
    {c : ClickUpComment} (h : c ∈ stampComments cs tid tname) :
    ∃ c0 ∈ cs, c = { c0 with task_id := some tid, task_name := some tname } := by
  obtain ⟨c0, hc0, heq⟩ := List.mem_map.mp h
  exact ⟨c0, hc0, heq.symm⟩

lemma setTaskComments_mem {tid : String} {cs : List ClickUpComment} :
    ∀ {ts : List ClickUpTask} {t : ClickUpTask}, t ∈ setTaskComments ts tid cs →
      t ∈ ts ∨ ∃ t0 ∈ ts, t0.id = tid ∧ t = { t0 with comments := cs } := by
  intro ts
  induction ts with
  | nil => intro t h; simp [setTaskComments] at h
  | cons t1 rest ih =>
    intro t h
    unfold setTaskComments at h
    by_cases hk : (t1.id == tid) = true
    · rw [if_pos hk] at h
      rcases List.mem_cons.mp h with rfl | h2
      · exact Or.inr ⟨t1, List.mem_cons_self _ _, by simpa using hk, rfl⟩
      · exact Or.inl (List.mem_cons_of_mem _ h2)
    · rw [if_neg hk] at h
      rcases List.mem_cons.mp h with rfl | h2
      · exact Or.inl (List.mem_cons_self _ _)
      · rcases ih h2 with h3 | ⟨t0, ht0, hid0, heq⟩
        · exact Or.inl (List.mem_cons_of_mem _ h3)
        · exact Or.inr ⟨t0, List.mem_cons_of_mem _ ht0, hid0, heq⟩

lemma attachToProject_inv {Pr : ClickUpComment → Prop}
    {Pt : ClickUpTask → ClickUpComment → Prop} {q : ProjectData} {res : FetchResult}
    (hq1 : ∀ c ∈ q.recentComments, Pr c)
    (hq2 : ∀ t ∈ q.tasks, ∀ c ∈ t.comments, Pt t c)
    (hstampR : ∀ c ∈ stampComments res.comments res.taskId res.taskName, Pr c)
    (hstampT : ∀ t : ClickUpTask, t.id = res.taskId →
      ∀ c ∈ stampComments res.comments res.taskId res.taskName, Pt t c) :
    (∀ c ∈ (attachToProject q res).recentComments, Pr c) ∧
      (∀ t ∈ (attachToProject q res).tasks, ∀ c ∈ t.comments, Pt t c) := by
  unfold attachToProject
  by_cases hAny : (q.tasks.any (fun t => t.id == res.taskId)) = true
  · rw [if_pos hAny]
    constructor
    · intro c hc
      simp only [List.mem_append] at hc
      rcases hc with hc | hc
      · exact hq1 c hc
      · exact hstampR c hc
    · intro t ht c hc
      rcases setTaskComments_mem ht with ht0 | ⟨t0, _, hid0, rfl⟩
      · exact hq2 t ht0 c hc
      · exact hstampT
          { t0 with comments := stampComments res.comments res.taskId res.taskName }
          hid0 c hc
  · rw [if_neg hAny]
    exact ⟨hq1, hq2⟩

lemma applyAt_inv {Pr : ClickUpComment → Prop}
    {Pt : ClickUpTask → ClickUpComment → Prop} {res : FetchResult}
    (hstampR : ∀ c ∈ stampComments res.comments res.taskId res.taskName, Pr c)
    (hstampT : ∀ t : ClickUpTask, t.id = res.taskId →
      ∀ c ∈ stampComments res.comments res.taskId res.taskName, Pt t c) :
    ∀ (state : List ProjectData) (n : Nat),
      (∀ q ∈ state, (∀ c ∈ q.recentComments, Pr c) ∧
        (∀ t ∈ q.tasks, ∀ c ∈ t.comments, Pt t c)) →
      ∀ q ∈ applyAt state n res,
        (∀ c ∈ q.recentComments, Pr c) ∧
          (∀ t ∈ q.tasks, ∀ c ∈ t.comments, Pt t c) := by
  intro state
  induction state with
  | nil => intro n h q hq; simp [applyAt] at hq
  | cons p ps ih =>
    intro n h q hq
    cases n with
    | zero =>
      unfold applyAt at hq
      rcases List.mem_cons.mp hq with rfl | hq2
      · exact attachToProject_inv (h p (List.mem_cons_self _ _)).1
          (h p (List.mem_cons_self _ _)).2 hstampR hstampT
      · exact h q (List.mem_cons_of_mem _ hq2)
    | succ k =>
      unfold applyAt at hq
      rcases List.mem_cons.mp hq with rfl | hq2
      · exact h _ (List.mem_cons_self _ _)
      · exact ih k (fun q2 hq3 => h q2 (List.mem_cons_of_mem _ hq3)) q hq2

lemma foldl_applyResult_inv {Pr : ClickUpComment → Prop}
    {Pt : ClickUpTask → ClickUpComment → Prop} :
    ∀ (results : List FetchResult) (state : List ProjectData),
      (∀ res ∈ results,
        (∀ c ∈ stampComments res.comments res.taskId res.taskName, Pr c) ∧
        (∀ t : ClickUpTask, t.id = res.taskId →
          ∀ c ∈ stampComments res.comments res.taskId res.taskName, Pt t c)) →
      (∀ q ∈ state, (∀ c ∈ q.recentComments, Pr c) ∧
        (∀ t ∈ q.tasks, ∀ c ∈ t.comments, Pt t c)) →
      ∀ q ∈ results.foldl applyResult state,
        (∀ c ∈ q.recentComments, Pr c) ∧
          (∀ t ∈ q.tasks, ∀ c ∈ t.comments, Pt t c) := by
  intro results
  induction results with
  | nil => intro state _ h; simpa using h
  | cons res rest ih =>
    intro state hres h
    apply ih (applyResult state res) (fun r hr => hres r (List.mem_cons_of_mem _ hr))
    unfold applyResult
    by_cases hc : res.comments.length > 0
    · rw [if_pos hc]
      exact applyAt_inv (hres res (List.mem_cons_self _ _)).1
        (hres res (List.mem_cons_self _ _)).2 state res.projectIndex h
    · rw [if_neg hc]
      exact h

lemma finalizeComments_recent (p : ProjectData) :
    (finalizeComments p).recentComments =
      p.recentComments.insertionSort commentRecencyOrder := rfl

lemma finalizeComments_tasks (p : ProjectData) :
    (finalizeComments p).tasks = p.tasks := rfl

lemma finalizeComments_sorted (p : ProjectData) :
    List.Sorted commentRecencyOrder (finalizeComments p).recentComments := by
  rw [finalizeComments_recent]
  exact List.sorted_insertionSort commentRecencyOrder p.recentComments

lemma finalizeComments_head (p : ProjectData) :
    ∀ hd, (finalizeComments p).recentComments.head? = some hd →
      (finalizeComments p).latestComment = some hd := by
  intro hd h
  unfold finalizeComments at h ⊢
  cases hs : p.recentComments.insertionSort commentRecencyOrder with
  | nil => simp [hs] at h
  | cons c rest =>
    simp only [hs] at h ⊢
    simp at h
    subst h
    rfl

lemma finalizeComments_keep (p : ProjectData) :
    (finalizeComments p).recentComments = [] →
      (finalizeComments p).latestComment = p.latestComment := by
  intro h
  unfold finalizeComments at h ⊢
  cases hs : p.recentComments.insertionSort commentRecencyOrder with
  | nil => simp only [hs]
  | cons c rest => simp [hs] at h

lemma setTaskComments_strip {tid : String} {cs : List ClickUpComment} :
    ∀ ts : List ClickUpTask,
      (setTaskComments ts tid cs).map stripComments = ts.map stripComments := by
  intro ts
  induction ts with
  | nil => rfl
  | cons t rest ih =>
    unfold setTaskComments
    by_cases hk : (t.id == tid) = true
    · rw [if_pos hk]
      simp only [List.map_cons]
      rfl
    · rw [if_neg hk]
      simp only [List.map_cons, ih]

lemma attachToProject_frame {a q : ProjectData} {res : FetchResult}
    (h : frameAgrees a q) : frameAgrees a (attachToProject q res) := by
  obtain ⟨h1, h2, h3, h4, h5, h6, h7⟩ := h
  unfold attachToProject
  by_cases hAny : (q.tasks.any (fun t => t.id == res.taskId)) = true
  · rw [if_pos hAny]
    exact ⟨h1, h2, h3, h4, h5, h6, by rw [setTaskComments_strip]; exact h7⟩
  · rw [if_neg hAny]
    exact ⟨h1, h2, h3, h4, h5, h6, h7⟩

lemma attachToProject_latest {q : ProjectData} {res : FetchResult} :
    (attachToProject q res).latestComment = q.latestComment := by
  unfold attachToProject
  by_cases hAny : (q.tasks.any (fun t => t.id == res.taskId)) = true
  · rw [if_pos hAny]
  · rw [if_neg hAny]

lemma applyAt_forall₂ {R : ProjectData → ProjectData → Prop} {res : FetchResult}
    (hpres : ∀ a b, R a b → R a (attachToProject b res)) :
    ∀ (state ps : List ProjectData) (n : Nat),
      List.Forall₂ R ps state → List.Forall₂ R ps (applyAt state n res) := by
  intro state
  induction state with
  | nil =>
    intro ps n h
    cases h
    exact List.Forall₂.nil
  | cons b bs ih =>
    intro ps n h
    cases h with
    | cons ha hrest =>
      cases n with
      | zero => exact List.Forall₂.cons (hpres _ _ ha) hrest
      | succ k => exact List.Forall₂.cons ha (ih _ k hrest)

lemma foldl_applyResult_forall₂ {R : ProjectData → ProjectData → Prop}
    (hpres : ∀ (res : FetchResult) (a b : ProjectData), R a b → R a (attachToProject b res)) :
    ∀ (results : List FetchResult) (ps state : List ProjectData),
      List.Forall₂ R ps state → List.Forall₂ R ps (results.foldl applyResult state) := by
  intro results
  induction results with
  | nil => intro ps state h; simpa using h
  | cons res rest ih =>
    intro ps state h
    apply ih
    unfold applyResult
    by_cases hc : res.comments.length > 0
    · rw [if_pos hc]
      exact applyAt_forall₂ (hpres res) state ps res.projectIndex h
    · rw [if_neg hc]
      exact h

lemma freshCopy_frame (p : ProjectData) : frameAgrees p (freshCopy p) := by
  refine ⟨rfl, rfl, rfl, rfl, rfl, rfl, ?_⟩
  unfold freshCopy
  show (p.tasks.map (fun t => { t with comments := [] })).map stripComments =
    p.tasks.map stripComments
  rw [List.map_map]
  apply List.map_congr_left
  intro t _
  rfl

lemma forall₂_map_rel {R S : ProjectData → ProjectData → Prop}
    {f : ProjectData → ProjectData} :
    ∀ {ps state : List ProjectData}, List.Forall₂ R ps state →
      (∀ a b, R a b → S a (f b)) → List.Forall₂ S ps (state.map f) := by
  intro ps state h hf
  induction h with
  | nil => exact List.Forall₂.nil
  | cons ha hrest ih => exact List.Forall₂.cons (hf _ _ ha) ih

lemma forall₂_fresh {R : ProjectData → ProjectData → Prop}
    (h : ∀ p, R p (freshCopy p)) (ps : List ProjectData) :
    List.Forall₂ R ps (ps.map freshCopy) := by
  induction ps with
  | nil => exact List.Forall₂.nil
  | cons p rest ih => exact List.Forall₂.cons (h p) ih

/-- C9: enrichment builds fresh copies of its input projects — positionally,
every output project agrees with its input project on every field other than
`recentComments`, `latestComment` and the tasks' `comments` (the tasks
themselves correspond one to one up to their `comments` field); in the pure
embedding the caller's records are values, so the inputs are untouched by
construction. -/
theorem enrichProjects_frame (fc : String → List ClickUpComment) (now : Int)
    (projects : List ProjectData) :
    List.Forall₂ frameAgrees projects (enrichProjectsWithComments fc now projects) := by
  unfold enrichProjectsWithComments
  apply forall₂_map_rel
  · apply foldl_applyResult_forall₂ (fun res a b h => attachToProject_frame h)
    exact forall₂_fresh freshCopy_frame projects
  · intro a b h
    obtain ⟨h1, h2, h3, h4, h5, h6, h7⟩ := h
    exact ⟨h1, h2, h3, h4, h5, h6, by rw [finalizeComments_tasks]; exact h7⟩

/-- C10: when enrichment attaches no comments to a project, the output keeps
the `latestComment` value the input carried (an output can thus pair a
non-empty `latestComment` with an empty `recentComments`, as the concrete
instance shows); `latestComment` is reassigned only when `recentComments` is
non-empty, and then to its head. -/
theorem enrichProjects_latestComment (fc : String → List ClickUpComment) (now : Int)
    (projects : List ProjectData) :
    List.Forall₂ (fun p q =>
      (q.recentComments = [] → q.latestComment = p.latestComment) ∧
      (∀ hd, q.recentComments.head? = some hd → q.latestComment = some hd))
      projects (enrichProjectsWithComments fc now projects) ∧
    (enrichProjectsWithComments exFetchNone 0 [exProjQuiet]).map
      (fun q => (q.latestComment, q.recentComments)) = [(some exCom1, [])] := by
  constructor
  · unfold enrichProjectsWithComments
    apply forall₂_map_rel (R := fun p q => q.latestComment = p.latestComment)
    · apply foldl_applyResult_forall₂
        (R := fun p q => q.latestComment = p.latestComment)
      · intro res a b h
        rw [attachToProject_latest]
        exact h
      · exact forall₂_fresh (R := fun p q => q.latestComment = p.latestComment)
          (fun p => rfl) projects
    · intro a b h
      refine ⟨fun hemp => ?_, fun hd hh => finalizeComments_head b hd hh⟩
      rw [finalizeComments_keep b hemp, h]
  · decide

/-- C4 (amended): comment fetches are issued exactly for candidate tasks
whose parsed `date_updated` is strictly newer than 30 days before the call
time (a window with no upper bound: future timestamps also qualify); every
comment attached to the output originates from the fetch issued for one
specific recently-updated input task `t` and carries `task_id`/`task_name`
equal to that task's id and name — its payload is a comment the comment
source returned for `t.id`, stamped with exactly `t.id` and `t.name` — and a
comment attached to a task always carries that task's id; within each output
project `recentComments` is sorted newest-first by parsed timestamp and,
when it is non-empty, `latestComment` is its head. -/
theorem enrichProjects_comments (fc : String → List ClickUpComment) (now : Int)
    (projects : List ProjectData) :
    (∀ item ∈ candidateTasks now projects 0, ∃ p ∈ projects, ∃ t ∈ p.tasks,
      isRecentlyUpdated now t = true ∧ item.taskId = t.id ∧ item.taskName = t.name)
    ∧ (∀ q ∈ enrichProjectsWithComments fc now projects,
      (∀ c ∈ q.recentComments, ∃ p ∈ projects, ∃ t ∈ p.tasks,
        isRecentlyUpdated now t = true ∧ ∃ c0 ∈ fc t.id,
        c = { c0 with task_id := some t.id, task_name := some t.name }) ∧
      (∀ t ∈ q.tasks, ∀ c ∈ t.comments, c.task_id = some t.id ∧
        ∃ p ∈ projects, ∃ t0 ∈ p.tasks, isRecentlyUpdated now t0 = true ∧
        ∃ c0 ∈ fc t0.id,
        c = { c0 with task_id := some t0.id, task_name := some t0.name }) ∧
      List.Sorted commentRecencyOrder q.recentComments ∧
      (∀ hd, q.recentComments.head? = some hd → q.latestComment = some hd)) := by
  constructor
  · exact fun item h => candidateTasks_mem projects 0 item h
  · intro q hq
    unfold enrichProjectsWithComments at hq
    obtain ⟨q0, hq0, rfl⟩ := List.mem_map.mp hq
    have hfresh : ∀ q2 ∈ projects.map freshCopy,
        (∀ c ∈ q2.recentComments, ∃ p ∈ projects, ∃ t ∈ p.tasks,
          isRecentlyUpdated now t = true ∧ ∃ c0 ∈ fc t.id,
          c = { c0 with task_id := some t.id, task_name := some t.name }) ∧
        (∀ t ∈ q2.tasks, ∀ c ∈ t.comments, c.task_id = some t.id ∧
          ∃ p ∈ projects, ∃ t0 ∈ p.tasks, isRecentlyUpdated now t0 = true ∧
          ∃ c0 ∈ fc t0.id,
          c = { c0 with task_id := some t0.id, task_name := some t0.name }) := by
      intro q2 hq2
      obtain ⟨p0, _, rfl⟩ := List.mem_map.mp hq2
      constructor
      · intro c hc
        simp [freshCopy] at hc
      · intro t ht c hc
        obtain ⟨t0, _, rfl⟩ := List.mem_map.mp ht
        simp at hc
    have hres : ∀ res ∈ fetchResults fc (candidateTasks now projects 0),
        (∀ c ∈ stampComments res.comments res.taskId res.taskName,
          ∃ p ∈ projects, ∃ t ∈ p.tasks, isRecentlyUpdated now t = true ∧
          ∃ c0 ∈ fc t.id,
          c = { c0 with task_id := some t.id, task_name := some t.name }) ∧
        (∀ t2 : ClickUpTask, t2.id = res.taskId →
          ∀ c ∈ stampComments res.comments res.taskId res.taskName,
          c.task_id = some t2.id ∧
            ∃ p ∈ projects, ∃ t0 ∈ p.tasks, isRecentlyUpdated now t0 = true ∧
            ∃ c0 ∈ fc t0.id,
            c = { c0 with task_id := some t0.id, task_name := some t0.name }) := by
      intro res hresmem
      obtain ⟨hitem, hcoms⟩ := fetchResults_mem hresmem
      obtain ⟨p, hp, t, ht, hrecent, hid, hname⟩ := candidateTasks_mem projects 0 _ hitem
      have base : ∀ c ∈ stampComments res.comments res.taskId res.taskName,
          ∃ p2 ∈ projects, ∃ t2 ∈ p2.tasks, isRecentlyUpdated now t2 = true ∧
          ∃ c0 ∈ fc t2.id,
          c = { c0 with task_id := some t2.id, task_name := some t2.name } := by
        intro c hcmem
        obtain ⟨c0, hc0, hceq⟩ := stampComments_mem_inv hcmem
        refine ⟨p, hp, t, ht, hrecent, c0, ?_, ?_⟩
        · rw [← hid, ← hcoms]
          exact hc0
        · rw [hceq, ← hid, ← hname]
      constructor
      · exact base
      · intro t2 ht2 c hcmem
        refine ⟨?_, base c hcmem⟩
        obtain ⟨hcid, _⟩ := stampComments_stamped c hcmem
        rw [hcid, ht2]
    have hinv := foldl_applyResult_inv (fetchResults fc (candidateTasks now projects 0))
      (projects.map freshCopy) hres hfresh q0 hq0
    obtain ⟨hrec2, htasks2⟩ := hinv
    refine ⟨?_, ?_, finalizeComments_sorted q0, finalizeComments_head q0⟩
    · intro c hc
      rw [finalizeComments_recent] at hc
      exact hrec2 c
        ((List.perm_insertionSort commentRecencyOrder q0.recentComments).mem_iff.mp hc)
    · intro t ht c hc
      rw [finalizeComments_tasks] at ht
      exact htasks2 t ht c hc

/-- Witness for C4 (amended): the single candidate of `exProjIn` and the
enriched output project, whose comments all originate from the fetch for
task `"2"` and carry its id and name. -/
theorem enrichProjects_comments_witness :
    (∃ p ∈ [exProjIn], ∃ t ∈ p.tasks, isRecentlyUpdated 0 t = true ∧
      ({ taskId := "2", projectIndex := 0, taskName := "t2" } : FetchItem).taskId = t.id ∧
      ({ taskId := "2", projectIndex := 0, taskName := "t2" } : FetchItem).taskName = t.name) ∧
    ((∀ c ∈ exProjEnriched.recentComments, ∃ p ∈ [exProjIn], ∃ t ∈ p.tasks,
        isRecentlyUpdated 0 t = true ∧ ∃ c0 ∈ exFetch t.id,
        c = { c0 with task_id := some t.id, task_name := some t.name }) ∧
      (∀ t ∈ exProjEnriched.tasks, ∀ c ∈ t.comments, c.task_id = some t.id ∧
        ∃ p ∈ [exProjIn], ∃ t0 ∈ p.tasks, isRecentlyUpdated 0 t0 = true ∧
        ∃ c0 ∈ exFetch t0.id,
        c = { c0 with task_id := some t0.id, task_name := some t0.name }) ∧
      List.Sorted commentRecencyOrder exProjEnriched.recentComments ∧
      (∀ hd, exProjEnriched.recentComments.head? = some hd →
        exProjEnriched.latestComment = some hd)) :=
  ⟨(enrichProjects_comments exFetch 0 [exProjIn]).1
      { taskId := "2", projectIndex := 0, taskName := "t2" } (by decide),
    (enrichProjects_comments exFetch 0 [exProjIn]).2 exProjEnriched (by decide)⟩

/-- C4 counterexample to the claim as stated: a task updated one day in the
future of the reference time is queued for a comment fetch although its
`date_updated` does not lie within the 30 days preceding the call time. -/
theorem enrichProjects_comments_counterexample :
    ¬ commentWindowClaim 0 [exProjFuture] ∧
    (candidateTasks 0 [exProjFuture] 0).map (fun item => item.taskId) = ["2"] := by
  unfold commentWindowClaim
  decide
